import Mathlib

/-!
# A saga-style transaction runner: `tx.Commit`

A shallow embedding of `transaction.go` (package `tx`).

The Go program runs caller-supplied functions that have side effects, inspects
them through `reflect`, and may panic.  The embedding makes all three explicit:

* the world the supplied functions act on is a state `σ` that is threaded
  through every call;
* a value of the empty interface type is an `AnyValue`: `nil`, a value that is
  not a function, or a function value with its signature and its body;
* each `reflect` operation that can panic returns an `Option`, `none` standing
  for the panic, and `Commit` ends in `Outcome.panicked` when one of them does.

`Commit` also keeps a log of the calls it makes (`Event`), which is not in the
Go source: it is the instrument through which "which function was invoked, and
in which order" is observed.
-/

namespace Tx


/-! ## Go error values -/

/-- The address of an error value.  `global n` is an address allocated outside
the `Commit` call under study (package variables, values made by the caller or
by a task); `fresh n` is the `n`-th allocation made by that call itself. -/
inductive Ptr where
  | global (n : Nat)
  | fresh (n : Nat)
  deriving DecidableEq, Repr

/-- Go `error` values that are not nil.  `errorString p s` is the
`*errors.errorString` made by `errors.New(s)` (and by `fmt.Errorf` for a format
without `%w`); it has no `Unwrap` method.  `joinError p errs` is the
`*errors.joinError` made by `errors.Join`; its `Unwrap` returns `errs`. -/
inductive GoError where
  | errorString (p : Ptr) (s : String)
  | joinError (p : Ptr) (errs : List GoError)
  deriving Repr

namespace GoError

mutual
/-- The method `Error()`: the text of `errors.New`, and for a `joinError` the
texts of its elements separated by newlines. -/
def Error : GoError → String
  | errorString _ s => s
  | joinError _ errs => joinText errs
/-- The body of `(*joinError).Error`: the first text, then each further text
after a newline byte.  (`errors.Join` never builds an empty list.) -/
def joinText : List GoError → String
  | [] => ""
  | [e] => e.Error
  | e :: e2 :: rest => e.Error ++ "\n" ++ joinText (e2 :: rest)
end

/-- Go `==` on two non-nil `error` interface values holding pointers: the same
dynamic type and the same address. -/
def same : GoError → GoError → Bool
  | errorString p _, errorString q _ => decide (p = q)
  | joinError p _, joinError q _ => decide (p = q)
  | _, _ => false

/-- What `Unwrap() []error` returns, and the empty list for a value without an
`Unwrap` method. -/
def Unwrap : GoError → List GoError
  | errorString _ _ => []
  | joinError _ errs => errs

end GoError

mutual
/-- The function `errors.Is` on non-nil arguments: `err` is the target, or
`err` unwraps to a list one of whose elements matches the target. -/
def errorsIs : GoError → GoError → Bool
  | GoError.errorString p s, target => (GoError.errorString p s).same target
  | GoError.joinError p errs, target =>
      (GoError.joinError p errs).same target || errorsIsAny errs target
/-- The loop of `errors.Is` over the elements of an `Unwrap() []error`. -/
def errorsIsAny : List GoError → GoError → Bool
  | [], _ => false
  | e :: es, target => errorsIs e target || errorsIsAny es target
end

/-- The function `errors.New`, given the address of the value it allocates. -/
def errorsNew (p : Ptr) (text : String) : GoError := GoError.errorString p text

/-- The verb `%v` applied to an `error`: its `Error()` text, or `<nil>`. -/
def formatV : Option GoError → String
  | none => "<nil>"
  | some e => e.Error

/-- The call `fmt.Errorf("task returned an error: %v", taskError)`: without a
`%w` verb the result is `errors.New` of the formatted text. -/
def fmtErrorf (p : Ptr) (taskError : Option GoError) : GoError :=
  errorsNew p ("task returned an error: " ++ formatV taskError)

/-- The function `errors.Join`: nil when every argument is nil, otherwise a
`joinError` of the non-nil arguments in order. -/
def errorsJoin (p : Ptr) (errs : List (Option GoError)) : Option GoError :=
  match errs.filterMap id with
  | [] => none
  | e :: es => some (GoError.joinError p (e :: es))

/-- The package variable `ErrMustReturnError`. -/
def ErrMustReturnError : GoError :=
  errorsNew (Ptr.global 0) "the first function of a transaction must return at least one error"

/-- The package variable `ErrTransactionFailed`. -/
def ErrTransactionFailed : GoError :=
  errorsNew (Ptr.global 1) "transaction failed"

/-! ## Values, types and reflection -/

/-- The type of one output of a function, as far as `hasErrorReturnType` tells
types apart: the interface type `error`, or any other type. -/
inductive GoType where
  | error
  | other (n : Nat)
  deriving DecidableEq, Repr

/-- A function type as `reflect.Type` shows it: `NumIn`, `IsVariadic` and the
list of `Out(i)`. -/
structure FuncType where
  numIn : Nat
  isVariadic : Bool
  out : List GoType
  deriving DecidableEq, Repr

/-- One element of the slice `reflect.Value.Call` returns. -/
inductive Value where
  | nil
  | err (e : GoError)
  | other (n : Nat)
  deriving Repr

/-- The method `reflect.Value.IsNil`: defined on a value of interface kind,
a panic (`none`) on a value of a kind that cannot be nil. -/
def Value.IsNil : Value → Option Bool
  | Value.nil => some true
  | Value.err _ => some false
  | Value.other _ => none

/-- The expression `v.Interface().(error)` on a value that is not nil. -/
def Value.asError : Value → Option GoError
  | Value.err e => some e
  | _ => none

/-- The Go type of a result value: a slot of type `error` holds nil or an
error, any other slot holds a value of its own type. -/
def Value.hasType : Value → GoType → Bool
  | Value.nil, GoType.error => true
  | Value.err _, GoType.error => true
  | Value.other n, GoType.other m => decide (n = m)
  | _, _ => false

/-- What running the body of a Go function on the world `st` does: it returns
its results in a new world, or it panics. -/
inductive CallResult (σ : Type) where
  | returned (results : List Value) (st : σ)
  | panicked

/-- A value of function type: its signature and its body, `none` for the nil
function. -/
structure FuncValue (σ : Type) where
  type : FuncType
  body : Option (σ → CallResult σ)

/-- A value of type `interface{}`. -/
inductive AnyValue (σ : Type) where
  | nil
  | nonFunc (n : Nat)
  | func (f : FuncValue σ)

/-- The struct `Task`. -/
structure Task (σ : Type) where
  Func : AnyValue σ
  Rollbacks : List (AnyValue σ)

/-- What `reflect.TypeOf` returns when it is not nil. -/
inductive ReflectType where
  | nonFunc (n : Nat)
  | func (t : FuncType)
  deriving DecidableEq, Repr

/-- The function `reflect.TypeOf`: nil (`none`) for the nil interface. -/
def reflectTypeOf {σ : Type} : AnyValue σ → Option ReflectType
  | AnyValue.nil => none
  | AnyValue.nonFunc n => some (ReflectType.nonFunc n)
  | AnyValue.func f => some (ReflectType.func f.type)

/-- The method `NumOut`/`Out` of a `reflect.Type`: a panic (`none`) on the nil
type and on a type that is not a function type. -/
def reflectOuts : Option ReflectType → Option (List GoType)
  | some (ReflectType.func t) => some t.out
  | _ => none

/-- Whether `Call(nil)` passes the argument-count check of `reflect`: a
variadic function may have its last parameter left out. -/
def FuncType.acceptsNoArgs (t : FuncType) : Bool :=
  (if t.isVariadic then t.numIn - 1 else t.numIn) == 0

/-- The call `reflect.ValueOf(v).Call(nil)`: a panic on the zero Value, on a
value that is not a function, on the nil function and on a function that needs
arguments; otherwise the body runs. -/
def Call {σ : Type} (v : AnyValue σ) (st : σ) : CallResult σ :=
  match v with
  | AnyValue.func f =>
    match f.body with
    | some body => if f.type.acceptsNoArgs then body st else CallResult.panicked
    | none => CallResult.panicked
  | _ => CallResult.panicked

/-! ## `hasErrorReturnType` -/

/-- The loop of `hasErrorReturnType` from index `i` on, `outs` being the
outputs at the indices `i, i+1, ...`. -/
def hasErrorReturnTypeLoop : List GoType → Nat → Int × Bool
  | [], _ => (-1, false)
  | t :: rest, i =>
    if t = GoType.error then ((i : Int), true) else hasErrorReturnTypeLoop rest (i + 1)

/-- The function `hasErrorReturnType`. -/
def hasErrorReturnType (funcType : Option ReflectType) : Option (Int × Bool) :=
  match reflectOuts funcType with
  | none => none
  | some outs => some (hasErrorReturnTypeLoop outs 0)

/-! ## `Commit` -/

/-- A call made by `Commit`: the `Func` of the task at index `i`, or the
rollback at position `j` of the task at index `i`. -/
inductive Event where
  | func (i : Nat)
  | rollback (i j : Nat)
  deriving DecidableEq, Repr

/-- An element of `funcsToExecute`, with the place it was taken from. -/
structure Pending (σ : Type) where
  task : Nat
  pos : Nat
  fn : AnyValue σ

/-- The outcome of `Commit`: the error it returns, the world it leaves and the
calls it made, or a panic. -/
inductive Outcome (σ : Type) where
  | returned (err : Option GoError) (st : σ) (log : List Event)
  | panicked

/-- The outcome of the validation loop. -/
inductive Validation where
  | passed
  | rejected
  | panicked
  deriving DecidableEq, Repr

/-- The first loop of `Commit` (lines 37-43). -/
def validateLoop {σ : Type} : List (Task σ) → Validation
  | [] => Validation.passed
  | task :: rest =>
    match hasErrorReturnType (reflectTypeOf task.Func) with
    | none => Validation.panicked
    | some (_, hasErr) => if !hasErr then Validation.rejected else validateLoop rest

/-- The loop `for _, f := range t.Rollbacks` (lines 71-73), `j` being the
position of the first element of the remaining list. -/
def appendRollbacks {σ : Type} (k : Nat) :
    List (AnyValue σ) → Nat → List (Pending σ) → List (Pending σ)
  | [], _, funcsToExecute => funcsToExecute
  | f :: rest, j, funcsToExecute =>
    appendRollbacks k rest (j + 1) (funcsToExecute ++ [{ task := k, pos := j, fn := f }])

/-- The loop `for k, t := range tasks` (lines 66-74). -/
def collectLoop {σ : Type} (i : Nat) :
    List (Task σ) → Nat → List (Pending σ) → List (Pending σ)
  | [], _, funcsToExecute => funcsToExecute
  | t :: rest, k, funcsToExecute =>
    if k > i then funcsToExecute
    else collectLoop i rest (k + 1) (appendRollbacks k t.Rollbacks 0 funcsToExecute)

/-- The local variables of `Commit` after its second loop. -/
structure Locals (σ : Type) where
  ok : Bool
  taskError : Option GoError
  funcsToExecute : List (Pending σ)
  st : σ
  log : List Event

/-- The second loop of `Commit` (lines 48-79) from index `i` on; `tasks` is
the whole argument, the list matched on holds the tasks at `i, i+1, ...`.
`none` is a panic. -/
def execLoop {σ : Type} (tasks : List (Task σ)) :
    List (Task σ) → Nat → σ → List Event → Option (Locals σ)
  | [], _, st, log =>
    some { ok := true, taskError := none, funcsToExecute := [], st := st, log := log }
  | task :: rest, i, st, log =>
    match hasErrorReturnType (reflectTypeOf task.Func) with
    | none => none
    | some (errPos, returnsError) =>
      if !returnsError then
        some { ok := true, taskError := none, funcsToExecute := [], st := st, log := log }
      else
        match Call task.Func st with
        | CallResult.panicked => none
        | CallResult.returned results st1 =>
          if errPos < 0 then none
          else
            match results[errPos.toNat]? with
            | none => none
            | some r =>
              match r.IsNil with
              | none => none
              | some true => execLoop tasks rest (i + 1) st1 (log ++ [Event.func i])
              | some false =>
                some { ok := false, taskError := r.asError,
                       funcsToExecute := collectLoop i tasks 0 [],
                       st := st1, log := log ++ [Event.func i] }

/-- The third loop of `Commit` (lines 83-85): `n` is `i + 1`, so the loop ends
at `n = 0`.  `none` is a panic. -/
def sweepLoop {σ : Type} (funcsToExecute : List (Pending σ)) :
    Nat → σ → List Event → Option (σ × List Event)
  | 0, st, log => some (st, log)
  | n + 1, st, log =>
    match funcsToExecute[n]? with
    | none => none
    | some p =>
      match Call p.fn st with
      | CallResult.panicked => none
      | CallResult.returned _ st1 =>
        sweepLoop funcsToExecute n st1 (log ++ [Event.rollback p.task p.pos])

/-- The function `Commit`, run on the world `st`. -/
def Commit {σ : Type} (tasks : List (Task σ)) (st : σ) : Outcome σ :=
  match validateLoop tasks with
  | Validation.panicked => Outcome.panicked
  | Validation.rejected => Outcome.returned (some ErrMustReturnError) st []
  | Validation.passed =>
    match execLoop tasks tasks 0 st [] with
    | none => Outcome.panicked
    | some l =>
      match sweepLoop l.funcsToExecute l.funcsToExecute.length l.st l.log with
      | none => Outcome.panicked
      | some (st2, log2) =>
        if !l.ok then
          Outcome.returned
            (errorsJoin (Ptr.fresh 1) [some ErrTransactionFailed, some (fmtErrorf (Ptr.fresh 0) l.taskError)])
            st2 log2
        else Outcome.returned none st2 log2

/-! ## The vocabulary of the claims -/

/-- A task passes validation: its `Func` is a function one of whose outputs
has type `error`. -/
def Task.hasErrorOutput {σ : Type} (t : Task σ) : Bool :=
  match t.Func with
  | AnyValue.func f => decide (GoType.error ∈ f.type.out)
  | _ => false

/-- The `Func` of the task is a value of function type. -/
def Task.isFunc {σ : Type} (t : Task σ) : Bool :=
  match t.Func with
  | AnyValue.func _ => true
  | _ => false

/-- What one run of a task's `Func` amounts to. -/
inductive StepResult (σ : Type) where
  | succeeded (st : σ)
  | failed (e : GoError) (st : σ)
  | stuck

/-- Running the `Func` of a task on the world `st`: it returns a nil error
(`succeeded`), it returns a non-nil error (`failed`), or neither (`stuck`: it
is no function with an `error` output, the call panics, or the result at the
first `error` output is no error value). -/
def Task.step {σ : Type} (t : Task σ) (st : σ) : StepResult σ :=
  match t.Func with
  | AnyValue.func f =>
    if GoType.error ∈ f.type.out then
      match Call (AnyValue.func f) st with
      | CallResult.returned results st1 =>
        match results[f.type.out.indexOf GoType.error]? with
        | some Value.nil => StepResult.succeeded st1
        | some (Value.err e) => StepResult.failed e st1
        | _ => StepResult.stuck
      | CallResult.panicked => StepResult.stuck
    else StepResult.stuck
  | _ => StepResult.stuck

/-- Running the `Func`s in order from the world `st`: the index of the first
one that returns a non-nil error, that error, and the world it leaves; `none`
when no `Func` fails or one of them is stuck before that. -/
def firstFailure {σ : Type} : List (Task σ) → σ → Option (Nat × GoError × σ)
  | [], _ => none
  | t :: rest, st =>
    match t.step st with
    | StepResult.succeeded st1 =>
      match firstFailure rest st1 with
      | some (i, e, st2) => some (i + 1, e, st2)
      | none => none
    | StepResult.failed e st1 => some (0, e, st1)
    | StepResult.stuck => none

/-- Running the `Func`s in order from the world `st` when every one of them
returns a nil error: the world they leave. -/
def allSucceed {σ : Type} : List (Task σ) → σ → Option σ
  | [], st => some st
  | t :: rest, st =>
    match t.step st with
    | StepResult.succeeded st1 => allSucceed rest st1
    | _ => none

/-- Calling the values of a list one after the other from the world `st`:
the world they leave, `none` when one of the calls panics. -/
def runAll {σ : Type} : List (AnyValue σ) → σ → Option σ
  | [], st => some st
  | f :: rest, st =>
    match Call f st with
    | CallResult.returned _ st1 => runAll rest st1
    | CallResult.panicked => none

/-- A value that `Call(nil)` can call in every world without a panic. -/
def AnyValue.Returns {σ : Type} (v : AnyValue σ) : Prop :=
  ∀ st : σ, Call v st ≠ CallResult.panicked

/-- The rollbacks the tasks declare, in declaration order: task by task in
ascending index, and within a task by position. -/
def declaredRollbacks {σ : Type} (tasks : List (Task σ)) : List Event :=
  tasks.enum.flatMap fun kt => (List.range kt.2.Rollbacks.length).map (Event.rollback kt.1)

/-- The rollback values the tasks declare, in declaration order. -/
def rollbackValues {σ : Type} (tasks : List (Task σ)) : List (AnyValue σ) :=
  tasks.flatMap fun t => t.Rollbacks

/-- The event is the call of a rollback. -/
def Event.isRollback : Event → Bool
  | Event.rollback _ _ => true
  | Event.func _ => false

/-- The event is the call of a `Func`. -/
def Event.isFunc : Event → Bool
  | Event.func _ => true
  | Event.rollback _ _ => false

/-- The error `Commit` returns when a `Func` failed with `e`. -/
def transactionFailed (e : GoError) : GoError :=
  GoError.joinError (Ptr.fresh 1)
    [ErrTransactionFailed,
     GoError.errorString (Ptr.fresh 0) ("task returned an error: " ++ e.Error)]

/-- The element of `funcsToExecute` made from the rollback at position `jf.1`
of the task at index `k`. -/
def mkPending {σ : Type} (k : Nat) (jf : Nat × AnyValue σ) : Pending σ :=
  { task := k, pos := jf.1, fn := jf.2 }

/-- The event logged when an element of `funcsToExecute` is called. -/
def Pending.event {σ : Type} (p : Pending σ) : Event := Event.rollback p.task p.pos

/-- The outcome of `Commit` when the task at index `i` is the first to fail,
with error `e`, leaving the world `st1`: the rollbacks of the tasks `0..i` are
called last to first, and `Commit` returns the joined error unless one of
those calls panics. -/
def failureOutcome {σ : Type} (tasks : List (Task σ)) (i : Nat) (e : GoError) (st1 : σ) :
    Outcome σ :=
  match runAll (rollbackValues (tasks.take (i + 1))).reverse st1 with
  | some st2 =>
    Outcome.returned (some (transactionFailed e)) st2
      ((List.range (i + 1)).map Event.func ++ (declaredRollbacks (tasks.take (i + 1))).reverse)
  | none => Outcome.panicked

/-- The task at index `k` declares a rollback at position `j`, and `k ≤ i`. -/
def collectedAt {σ : Type} (tasks : List (Task σ)) (i k j : Nat) : Prop :=
  k ≤ i ∧ ∃ t, tasks[k]? = some t ∧ j < t.Rollbacks.length

/-- The world a call leaves, `none` when the call panics. -/
def callWorld {σ : Type} (v : AnyValue σ) (st : σ) : Option σ :=
  match Call v st with
  | CallResult.returned _ st1 => some st1
  | CallResult.panicked => none

/-- Two values that, called, do the same to every world, whatever each of
them returns. -/
def SameEffect {σ : Type} (r r2 : AnyValue σ) : Prop :=
  ∀ st : σ, callWorld r st = callWorld r2 st

/-- Two tasks with the same `Func` and as many rollbacks: the second is the
first with its rollbacks replaced one for one. -/
def Task.sameFuncAndCount {σ : Type} (t u : Task σ) : Prop :=
  t.Func = u.Func ∧ t.Rollbacks.length = u.Rollbacks.length

/-- The `Func` of the task is a Go function that takes no argument and
returns: a function value that is not nil, that `Call(nil)` accepts, and whose
body, in every world, returns results of the types its signature declares. -/
def Task.WellFormed {σ : Type} (t : Task σ) : Prop :=
  ∃ f body, t.Func = AnyValue.func f ∧ f.body = some body ∧ f.type.acceptsNoArgs = true ∧
    ∀ st : σ, ∃ results st1, body st = CallResult.returned results st1 ∧
      List.Forall₂ (fun v ty => v.hasType ty = true) results f.type.out

/-- The address of an error value. -/
def GoError.ptr : GoError → Ptr
  | GoError.errorString p _ => p
  | GoError.joinError p _ => p

/-- The outcome is a return with the error `err`. -/
def Outcome.returns {σ : Type} (o : Outcome σ) (err : Option GoError) : Prop :=
  ∃ st2 log, o = Outcome.returned err st2 log

/-! ## Sample transactions

The world of the samples is a journal: the list of the numbers the functions
called so far have written, oldest first. -/

/-- A Go `func() error` that writes `n` to the journal and returns nil. -/
def okFunc (n : Nat) : AnyValue (List Nat) :=
  AnyValue.func
    { type := { numIn := 0, isVariadic := false, out := [GoType.error] },
      body := some fun st => CallResult.returned [Value.nil] (st ++ [n]) }

/-- A Go `func() error` that writes `n` to the journal and returns
`errors.New(text)`, a value allocated at the address `global a`. -/
def failFunc (n a : Nat) (text : String) : AnyValue (List Nat) :=
  AnyValue.func
    { type := { numIn := 0, isVariadic := false, out := [GoType.error] },
      body := some fun st =>
        CallResult.returned [Value.err (errorsNew (Ptr.global a) text)] (st ++ [n]) }

/-- A Go `func()` that writes `n` to the journal. -/
def plainFunc (n : Nat) : AnyValue (List Nat) :=
  AnyValue.func
    { type := { numIn := 0, isVariadic := false, out := [] },
      body := some fun st => CallResult.returned [] (st ++ [n]) }

/-- The transaction of the test "task with error and rollback", with the
failing task moved to the second place: the first task succeeds, the second
fails with `errors.New("error")`, the third is never reached. -/
def sampleFailing : List (Task (List Nat)) :=
  [ { Func := okFunc 1, Rollbacks := [plainFunc 10, plainFunc 11] },
    { Func := failFunc 2 7 "error", Rollbacks := [plainFunc 20] },
    { Func := okFunc 3, Rollbacks := [plainFunc 30] } ]

/-- The transaction of the test "task with no error and rollback with error",
with a nil rollback added: both tasks succeed. -/
def sampleSucceeding : List (Task (List Nat)) :=
  [ { Func := okFunc 1, Rollbacks := [plainFunc 10, failFunc 11 7 "error", AnyValue.nil] },
    { Func := okFunc 2, Rollbacks := [plainFunc 20] } ]

/-- A transaction whose second task has a `Func` without an `error` output. -/
def sampleMalformed : List (Task (List Nat)) :=
  [ { Func := failFunc 1 7 "error", Rollbacks := [plainFunc 10] },
    { Func := plainFunc 2, Rollbacks := [plainFunc 20] },
    { Func := okFunc 3, Rollbacks := [] } ]

/-- The sample transaction `sampleFailing` with every rollback replaced: the
rollback of the failing task, which the sweep calls first, by one that returns
a non-nil error, the others by one that returns a nil error and by one that
returns nothing. -/
def sampleFailingReplaced : List (Task (List Nat)) :=
  [ { Func := okFunc 1, Rollbacks := [okFunc 10, plainFunc 11] },
    { Func := failFunc 2 7 "error", Rollbacks := [failFunc 20 8 "rollback failed"] },
    { Func := okFunc 3, Rollbacks := [plainFunc 30] } ]

/-- A Go `func(int) error`: it has an `error` output and needs one argument. -/
def unaryFunc : AnyValue (List Nat) :=
  AnyValue.func
    { type := { numIn := 1, isVariadic := false, out := [GoType.error] },
      body := some fun st => CallResult.returned [Value.nil] st }

/-- A Go `func() error` whose body panics. -/
def panickingFunc : AnyValue (List Nat) :=
  AnyValue.func
    { type := { numIn := 0, isVariadic := false, out := [GoType.error] },
      body := some fun _ => CallResult.panicked }

/-- The nil value of type `func() error`. -/
def nilFunc : AnyValue (List Nat) :=
  AnyValue.func { type := { numIn := 0, isVariadic := false, out := [GoType.error] }, body := none }

/-- The sample transaction `sampleMalformed` with its first two tasks
exchanged. -/
def sampleMalformedSwapped : List (Task (List Nat)) :=
  [ { Func := plainFunc 2, Rollbacks := [plainFunc 20] },
    { Func := failFunc 1 7 "error", Rollbacks := [plainFunc 10] },
    { Func := okFunc 3, Rollbacks := [] } ]

/-- The transaction of the test "task with error and rollback": the first
task fails with `errors.New("error")`, the second is never reached, and each
declares one rollback. -/
def sampleFirstFails : List (Task (List Nat)) :=
  [ { Func := failFunc 1 7 "error", Rollbacks := [plainFunc 10] },
    { Func := okFunc 2, Rollbacks := [plainFunc 20] } ]

/-- The type of a Go `func() (int, error, error)`. -/
def sampleFuncType : FuncType :=
  { numIn := 0, isVariadic := false, out := [GoType.other 0, GoType.error, GoType.error] }

/-- What a call of a function value shows at its first `error` output: the
value there, if any, and the world the call leaves; `none` when the call
panics. -/
def firstErrorView {σ : Type} (f : FuncValue σ) (st : σ) : Option (Option Value × σ) :=
  match Call (AnyValue.func f) st with
  | CallResult.returned results st1 => some (results[f.type.out.indexOf GoType.error]?, st1)
  | CallResult.panicked => none

/-- Two values that are functions of the same type and that, called in any
world, show the same at the first `error` output; what they return at their
other outputs is free. -/
def AgreeOnFirstError {σ : Type} (v v2 : AnyValue σ) : Prop :=
  ∃ f f2, v = AnyValue.func f ∧ v2 = AnyValue.func f2 ∧ f.type = f2.type ∧
    ∀ st : σ, firstErrorView f st = firstErrorView f2 st

/-- Two tasks with the same rollbacks whose `Func`s agree on the first
`error` output. -/
def Task.agreeOnFirstError {σ : Type} (t u : Task σ) : Prop :=
  AgreeOnFirstError t.Func u.Func ∧ t.Rollbacks = u.Rollbacks

/-- A Go `func() (int, error, error)` that writes `n` to the journal and
returns a nil first error and a non-nil second error. -/
def lateErrorFunc (n : Nat) : AnyValue (List Nat) :=
  AnyValue.func
    { type := sampleFuncType,
      body := some fun st =>
        CallResult.returned
          [Value.other 0, Value.nil, Value.err (errorsNew (Ptr.global 9) "late")] (st ++ [n]) }

/-- A Go `func() (int, error, error)` that writes `n` to the journal and
returns two nil errors. -/
def noErrorFunc (n : Nat) : AnyValue (List Nat) :=
  AnyValue.func
    { type := sampleFuncType,
      body := some fun st =>
        CallResult.returned [Value.other 0, Value.nil, Value.nil] (st ++ [n]) }

/-- A Go `func() (int, error, error)` that writes `n` to the journal and
returns a non-nil first error and a nil second error. -/
def earlyErrorFunc (n : Nat) : AnyValue (List Nat) :=
  AnyValue.func
    { type := sampleFuncType,
      body := some fun st =>
        CallResult.returned
          [Value.other 0, Value.err (errorsNew (Ptr.global 7) "error"), Value.nil] (st ++ [n]) }

/-- A task whose `Func` is `lateErrorFunc 1`, with one rollback. -/
def lateErrorTask : Task (List Nat) := { Func := lateErrorFunc 1, Rollbacks := [plainFunc 10] }

/-- A task whose `Func` is `noErrorFunc 1`, with one rollback. -/
def noErrorTask : Task (List Nat) := { Func := noErrorFunc 1, Rollbacks := [plainFunc 10] }

/-- A task whose `Func` is `earlyErrorFunc 1`, with one rollback. -/
def earlyErrorTask : Task (List Nat) := { Func := earlyErrorFunc 1, Rollbacks := [plainFunc 10] }

/-- A Go `func()` whose body panics. -/
def panicRollback : AnyValue (List Nat) :=
  AnyValue.func
    { type := { numIn := 0, isVariadic := false, out := [] },
      body := some fun _ => CallResult.panicked }

/-- A transaction that passes validation and whose second task fails; the
rollback of the failing task, which the sweep calls first, panics. -/
def sampleRollbackPanics : List (Task (List Nat)) :=
  [ { Func := okFunc 1, Rollbacks := [plainFunc 10] },
    { Func := failFunc 2 7 "error", Rollbacks := [panicRollback] } ]

/-- A transaction whose only task fails and declares a rollback that needs an
argument. -/
def sampleRollbackUnary : List (Task (List Nat)) :=
  [ { Func := failFunc 1 7 "error", Rollbacks := [unaryFunc] } ]

/-- A transaction whose only task fails and declares a nil rollback. -/
def sampleRollbackNil : List (Task (List Nat)) :=
  [ { Func := failFunc 1 7 "error", Rollbacks := [AnyValue.nil] } ]

/-- A transaction whose only task has a `Func` that panics. -/
def sampleFuncPanics : List (Task (List Nat)) :=
  [ { Func := panickingFunc, Rollbacks := [] } ]

/-- A transaction whose first `Func` is nil and whose second `Func` is a
function without an `error` output. -/
def sampleNilThenMalformed : List (Task (List Nat)) :=
  [ { Func := AnyValue.nil, Rollbacks := [] },
    { Func := plainFunc 2, Rollbacks := [] } ]

/-- The transaction `sampleNilThenMalformed` with its two tasks exchanged. -/
def sampleMalformedThenNil : List (Task (List Nat)) :=
  [ { Func := plainFunc 2, Rollbacks := [] },
    { Func := AnyValue.nil, Rollbacks := [] } ]

/-! ## `Commit` on a slice that the called functions can write to -/

/-- The argument slice of `Commit` when the functions it calls can write to
its backing array: `len` is its length, fixed when `Commit` is entered, and
`elem st i` is the element at index `i` in the world `st`. -/
structure TaskSlice (σ : Type) where
  len : Nat
  elem : σ → Nat → Task σ

/-- The elements of the slice in the world `st`, in order. -/
def TaskSlice.read {σ : Type} (s : TaskSlice σ) (st : σ) : List (Task σ) :=
  (List.range s.len).map (s.elem st)

/-- The slice that holds `tasks` in every world: nothing writes to it. -/
def TaskSlice.fixed {σ : Type} (tasks : List (Task σ)) : TaskSlice σ :=
  { len := tasks.length,
    elem := fun _ i => tasks.getD i { Func := AnyValue.nil, Rollbacks := [] } }

/-- The second loop of `Commit` (lines 48-79) on a slice that the called
functions can write to: `k` iterations are left, the next one at index `i`;
each iteration reads its element, and the collection loop reads the slice, in
the world of that moment.  `none` is a panic. -/
def execLoopOn {σ : Type} (s : TaskSlice σ) : Nat → Nat → σ → List Event → Option (Locals σ)
  | 0, _, st, log =>
    some { ok := true, taskError := none, funcsToExecute := [], st := st, log := log }
  | k + 1, i, st, log =>
    match hasErrorReturnType (reflectTypeOf (s.elem st i).Func) with
    | none => none
    | some (errPos, returnsError) =>
      if !returnsError then
        some { ok := true, taskError := none, funcsToExecute := [], st := st, log := log }
      else
        match Call (s.elem st i).Func st with
        | CallResult.panicked => none
        | CallResult.returned results st1 =>
          if errPos < 0 then none
          else
            match results[errPos.toNat]? with
            | none => none
            | some r =>
              match r.IsNil with
              | none => none
              | some true => execLoopOn s k (i + 1) st1 (log ++ [Event.func i])
              | some false =>
                some { ok := false, taskError := r.asError,
                       funcsToExecute := collectLoop i (s.read st1) 0 [],
                       st := st1, log := log ++ [Event.func i] }

/-- The function `Commit` on a slice that the called functions can write to,
run on the world `st`. -/
def CommitOn {σ : Type} (s : TaskSlice σ) (st : σ) : Outcome σ :=
  match validateLoop (s.read st) with
  | Validation.panicked => Outcome.panicked
  | Validation.rejected => Outcome.returned (some ErrMustReturnError) st []
  | Validation.passed =>
    match execLoopOn s s.len 0 st [] with
    | none => Outcome.panicked
    | some l =>
      match sweepLoop l.funcsToExecute l.funcsToExecute.length l.st l.log with
      | none => Outcome.panicked
      | some (st2, log2) =>
        if !l.ok then
          Outcome.returned
            (errorsJoin (Ptr.fresh 1) [some ErrTransactionFailed, some (fmtErrorf (Ptr.fresh 0) l.taskError)])
            st2 log2
        else Outcome.returned none st2 log2

/-- The results of every call of a `Func` of the tasks have the types its
signature declares, one result for each output: what `reflect.Value.Call`
returns for a Go function. -/
def ResultsTyped {σ : Type} (tasks : List (Task σ)) : Prop :=
  ∀ t ∈ tasks, ∀ f, t.Func = AnyValue.func f → ∀ (st st1 : σ) (results : List Value),
    Call t.Func st = CallResult.returned results st1 →
    List.Forall₂ (fun v ty => v.hasType ty = true) results f.type.out

/-- A slice of two tasks whose first `Func` writes to the second element:
until the journal holds `1` the second `Func` is a `func() error` that fails,
afterwards it is a `func()`.  The first `Func` writes `1` to the journal and
returns nil, which stands for the assignment `tasks[1].Func = func() {}`. -/
def sampleRewritten : TaskSlice (List Nat) :=
  { len := 2,
    elem := fun st i =>
      if i = 0 then { Func := okFunc 1, Rollbacks := [] }
      else if 1 ∈ st then { Func := plainFunc 2, Rollbacks := [] }
      else { Func := failFunc 2 7 "error", Rollbacks := [] } }

/-! ## Lemmas on the loops and on the samples -/

theorem hasErrorReturnTypeLoop_eq (outs : List GoType) (i : Nat) :
    hasErrorReturnTypeLoop outs i =
      if GoType.error ∈ outs then (((i + outs.indexOf GoType.error : Nat) : Int), true)
      else (-1, false) := by
  induction outs generalizing i with
  | nil => simp [hasErrorReturnTypeLoop]
  | cons t rest ih =>
    by_cases h : t = GoType.error
    · subst h
      simp [hasErrorReturnTypeLoop]
    · have h2 : ¬ GoType.error = t := fun h3 => h h3.symm
      have h4 : List.indexOf GoType.error (t :: rest) = (List.indexOf GoType.error rest).succ :=
        List.indexOf_cons_ne rest h
      simp only [hasErrorReturnTypeLoop, h, if_false, ih, List.mem_cons, h2, false_or, h4]
      by_cases h5 : GoType.error ∈ rest
      · simp only [h5, if_true]
        congr 2
        omega
      · simp [h5]

theorem hasErrorReturnType_func {σ : Type} (f : FuncValue σ) :
    hasErrorReturnType (reflectTypeOf (AnyValue.func f)) =
      some (if GoType.error ∈ f.type.out then
              (((f.type.out.indexOf GoType.error : Nat) : Int), true)
            else (-1, false)) := by
  simp [hasErrorReturnType, reflectTypeOf, reflectOuts, hasErrorReturnTypeLoop_eq]

theorem step_succeeded_inv {σ : Type} {t : Task σ} {st st1 : σ}
    (h : t.step st = StepResult.succeeded st1) :
    ∃ f results, t.Func = AnyValue.func f ∧ GoType.error ∈ f.type.out ∧
      Call t.Func st = CallResult.returned results st1 ∧
      results[f.type.out.indexOf GoType.error]? = some Value.nil := by
  unfold Task.step at h
  split at h
  · rename_i f hf
    split at h
    · rename_i hmem
      split at h
      · rename_i results st2 hcall
        split at h
        · rename_i hres
          injection h with h
          subst h
          exact ⟨f, results, hf, hmem, by rw [hf]; exact hcall, hres⟩
        · exact absurd h (by simp)
        · exact absurd h (by simp)
      · exact absurd h (by simp)
    · exact absurd h (by simp)
  · exact absurd h (by simp)

theorem step_failed_inv {σ : Type} {t : Task σ} {st st1 : σ} {e : GoError}
    (h : t.step st = StepResult.failed e st1) :
    ∃ f results, t.Func = AnyValue.func f ∧ GoType.error ∈ f.type.out ∧
      Call t.Func st = CallResult.returned results st1 ∧
      results[f.type.out.indexOf GoType.error]? = some (Value.err e) := by
  unfold Task.step at h
  split at h
  · rename_i f hf
    split at h
    · rename_i hmem
      split at h
      · rename_i results st2 hcall
        split at h
        · exact absurd h (by simp)
        · rename_i e2 hres
          injection h with h1 h2
          subst h1
          subst h2
          exact ⟨f, results, hf, hmem, by rw [hf]; exact hcall, hres⟩
        · exact absurd h (by simp)
      · exact absurd h (by simp)
    · exact absurd h (by simp)
  · exact absurd h (by simp)

theorem execLoop_cons_succeeded {σ : Type} (tasks rest : List (Task σ)) (t : Task σ)
    (i : Nat) (st st1 : σ) (log : List Event) (h : t.step st = StepResult.succeeded st1) :
    execLoop tasks (t :: rest) i st log =
      execLoop tasks rest (i + 1) st1 (log ++ [Event.func i]) := by
  obtain ⟨f, results, hf, hmem, hcall, hres⟩ := step_succeeded_inv h
  rw [execLoop, hf, hasErrorReturnType_func]
  rw [hf] at hcall
  simp [hmem, hcall, hres, Value.IsNil]

theorem execLoop_cons_failed {σ : Type} (tasks rest : List (Task σ)) (t : Task σ)
    (i : Nat) (st st1 : σ) (log : List Event) (e : GoError)
    (h : t.step st = StepResult.failed e st1) :
    execLoop tasks (t :: rest) i st log =
      some { ok := false, taskError := some e, funcsToExecute := collectLoop i tasks 0 [],
             st := st1, log := log ++ [Event.func i] } := by
  obtain ⟨f, results, hf, hmem, hcall, hres⟩ := step_failed_inv h
  rw [execLoop, hf, hasErrorReturnType_func]
  rw [hf] at hcall
  simp [hmem, hcall, hres, Value.IsNil, Value.asError]

theorem execLoop_allSucceed {σ : Type} (tasks : List (Task σ)) :
    ∀ (rest : List (Task σ)) (i : Nat) (st st1 : σ) (log : List Event),
      allSucceed rest st = some st1 →
      execLoop tasks rest i st log =
        some { ok := true, taskError := none, funcsToExecute := [], st := st1,
               log := log ++ (List.range' i rest.length).map Event.func } := by
  intro rest
  induction rest with
  | nil =>
    intro i st st1 log h
    simp only [allSucceed, Option.some.injEq] at h
    subst h
    simp [execLoop]
  | cons t rest ih =>
    intro i st st1 log h
    simp only [allSucceed] at h
    split at h
    · rename_i st2 hstep
      rw [execLoop_cons_succeeded tasks rest t i st st2 log hstep, ih (i + 1) st2 st1 _ h]
      simp [List.range'_succ]
    · exact absurd h (by simp)

theorem execLoop_firstFailure {σ : Type} (tasks : List (Task σ)) :
    ∀ (rest : List (Task σ)) (i j : Nat) (st st1 : σ) (log : List Event) (e : GoError),
      firstFailure rest st = some (j, e, st1) →
      execLoop tasks rest i st log =
        some { ok := false, taskError := some e,
               funcsToExecute := collectLoop (i + j) tasks 0 [], st := st1,
               log := log ++ (List.range' i (j + 1)).map Event.func } := by
  intro rest
  induction rest with
  | nil =>
    intro i j st st1 log e h
    simp [firstFailure] at h
  | cons t rest ih =>
    intro i j st st1 log e h
    simp only [firstFailure] at h
    split at h
    · rename_i st2 hstep
      split at h
      · rename_i j2 e2 st3 hrest
        simp only [Option.some.injEq, Prod.mk.injEq] at h
        obtain ⟨h1, h2, h3⟩ := h
        subst h1
        subst h2
        subst h3
        rw [execLoop_cons_succeeded tasks rest t i st st2 log hstep,
          ih (i + 1) j2 st2 st3 _ e2 hrest]
        have h4 : i + 1 + j2 = i + (j2 + 1) := by omega
        rw [h4, List.range'_succ i (j2 + 1)]
        simp
      · exact absurd h (by simp)
    · rename_i e2 st2 hstep
      simp only [Option.some.injEq, Prod.mk.injEq] at h
      obtain ⟨h1, h2, h3⟩ := h
      subst h1
      subst h2
      subst h3
      rw [execLoop_cons_failed tasks rest t i st st2 log e2 hstep]
      simp
    · exact absurd h (by simp)

theorem hasErrorReturnType_of_hasErrorOutput {σ : Type} {t : Task σ}
    (h : t.hasErrorOutput = true) :
    ∃ p : Int, hasErrorReturnType (reflectTypeOf t.Func) = some (p, true) := by
  unfold Task.hasErrorOutput at h
  split at h
  · rename_i f hf
    rw [hf, hasErrorReturnType_func]
    simp only [decide_eq_true_eq] at h
    exact ⟨((f.type.out.indexOf GoType.error : Nat) : Int), by simp [h]⟩
  · exact absurd h (by simp)

theorem validateLoop_passed {σ : Type} (tasks : List (Task σ))
    (h : ∀ t ∈ tasks, t.hasErrorOutput = true) : validateLoop tasks = Validation.passed := by
  induction tasks with
  | nil => rfl
  | cons t rest ih =>
    obtain ⟨p, hp⟩ := hasErrorReturnType_of_hasErrorOutput (h t (List.mem_cons_self t rest))
    simp only [validateLoop, hp]
    simpa using ih (fun u hu => h u (List.mem_cons_of_mem t hu))

theorem step_hasErrorOutput {σ : Type} {t : Task σ} {st : σ}
    (h : t.step st ≠ StepResult.stuck) : t.hasErrorOutput = true := by
  unfold Task.step at h
  unfold Task.hasErrorOutput
  split at h
  · rename_i f hf
    by_cases hmem : GoType.error ∈ f.type.out
    · simp [hmem]
    · simp [hmem] at h
  · exact absurd rfl h

theorem allSucceed_hasErrorOutput {σ : Type} :
    ∀ (tasks : List (Task σ)) (st st1 : σ), allSucceed tasks st = some st1 →
      ∀ t ∈ tasks, t.hasErrorOutput = true := by
  intro tasks
  induction tasks with
  | nil => intro st st1 _ t ht; simp at ht
  | cons u rest ih =>
    intro st st1 h t ht
    simp only [allSucceed] at h
    split at h
    · rename_i st2 hstep
      rcases List.mem_cons.mp ht with h1 | h1
      · subst h1
        exact step_hasErrorOutput (by rw [hstep]; simp)
      · exact ih st2 st1 h t h1
    · exact absurd h (by simp)

theorem appendRollbacks_eq {σ : Type} (k : Nat) :
    ∀ (rs : List (AnyValue σ)) (j : Nat) (acc : List (Pending σ)),
      appendRollbacks k rs j acc = acc ++ (rs.enumFrom j).map (mkPending k) := by
  intro rs
  induction rs with
  | nil => intro j acc; simp [appendRollbacks]
  | cons r rest ih =>
    intro j acc
    simp [appendRollbacks, ih, List.enumFrom_cons, mkPending]

theorem collectLoop_eq {σ : Type} (i : Nat) :
    ∀ (rest : List (Task σ)) (k : Nat) (acc : List (Pending σ)),
      collectLoop i rest k acc =
        acc ++ ((rest.take (i + 1 - k)).enumFrom k).flatMap
          (fun kt => (kt.2.Rollbacks.enumFrom 0).map (mkPending kt.1)) := by
  intro rest
  induction rest with
  | nil => intro k acc; simp [collectLoop]
  | cons t rest ih =>
    intro k acc
    by_cases hk : k > i
    · have h0 : i + 1 - k = 0 := by omega
      simp [collectLoop, hk, h0]
    · have h1 : i + 1 - k = (i + 1 - (k + 1)) + 1 := by omega
      simp only [collectLoop, hk, if_false, ih, appendRollbacks_eq]
      rw [h1, List.take_succ_cons, List.enumFrom_cons, List.flatMap_cons]
      simp [List.append_assoc]

theorem collectLoop_events {σ : Type} (i : Nat) (tasks : List (Task σ)) :
    (collectLoop i tasks 0 []).map Pending.event = declaredRollbacks (tasks.take (i + 1)) := by
  rw [collectLoop_eq]
  simp only [List.nil_append, Nat.sub_zero, declaredRollbacks, List.enum, List.map_flatMap]
  congr 1
  funext kt
  rw [List.map_map]
  have h : (Pending.event ∘ @mkPending σ kt.1) = (Event.rollback kt.1) ∘ Prod.fst := by
    funext jf
    rfl
  rw [h, ← List.map_map, List.enumFrom_map_fst, List.range_eq_range']

theorem enumFrom_flatMap_snd {α β : Type} (g : α → List β) :
    ∀ (l : List α) (k : Nat), (List.enumFrom k l).flatMap (fun kt => g kt.2) = l.flatMap g := by
  intro l
  induction l with
  | nil => intro k; rfl
  | cons a rest ih =>
    intro k
    rw [List.enumFrom_cons, List.flatMap_cons, List.flatMap_cons, ih]

theorem collectLoop_values {σ : Type} (i : Nat) (tasks : List (Task σ)) :
    (collectLoop i tasks 0 []).map Pending.fn = rollbackValues (tasks.take (i + 1)) := by
  rw [collectLoop_eq]
  simp only [List.nil_append, Nat.sub_zero, rollbackValues, List.map_flatMap]
  have h : ∀ kt : Nat × Task σ,
      List.map Pending.fn (List.map (mkPending kt.1) (List.enumFrom 0 kt.2.Rollbacks)) =
        kt.2.Rollbacks := by
    intro kt
    rw [List.map_map]
    have h2 : (Pending.fn ∘ @mkPending σ kt.1) = Prod.snd := by
      funext jf
      rfl
    rw [h2, List.enumFrom_map_snd]
  simp only [h]
  exact enumFrom_flatMap_snd (fun t : Task σ => t.Rollbacks) _ 0

theorem sweepLoop_eq {σ : Type} (fs : List (Pending σ)) :
    ∀ (n : Nat) (st : σ) (log : List Event), n ≤ fs.length →
      sweepLoop fs n st log =
        (runAll ((fs.take n).map Pending.fn).reverse st).map
          (fun st2 => (st2, log ++ ((fs.take n).map Pending.event).reverse)) := by
  intro n
  induction n with
  | zero => intro st log _; simp [sweepLoop, runAll]
  | succ n ih =>
    intro st log hn
    have hlt : n < fs.length := by omega
    have hget : fs[n]? = some fs[n] := List.getElem?_eq_getElem hlt
    have htake : fs.take (n + 1) = fs.take n ++ [fs[n]] := by
      rw [List.take_succ, hget]
      rfl
    rw [sweepLoop, hget, htake]
    simp only [List.map_append, List.map_cons, List.map_nil, List.reverse_append,
      List.reverse_cons, List.reverse_nil, List.nil_append, List.singleton_append, runAll]
    cases hc : Call fs[n].fn st with
    | panicked => simp
    | returned rs st1 =>
      simp only []
      rw [ih st1 _ (by omega)]
      simp [Pending.event, List.append_assoc]

theorem Commit_of_firstFailure {σ : Type} (tasks : List (Task σ)) (st st1 : σ) (i : Nat)
    (e : GoError) (hv : ∀ t ∈ tasks, t.hasErrorOutput = true)
    (hf : firstFailure tasks st = some (i, e, st1)) :
    Commit tasks st = failureOutcome tasks i e st1 := by
  unfold Commit failureOutcome
  rw [validateLoop_passed tasks hv, execLoop_firstFailure tasks tasks 0 i st st1 [] e hf]
  simp only [Nat.zero_add, List.nil_append]
  rw [sweepLoop_eq _ _ _ _ (le_refl _), List.take_length, collectLoop_events,
    collectLoop_values, ← List.range_eq_range']
  cases runAll (rollbackValues (tasks.take (i + 1))).reverse st1 with
  | none => rfl
  | some st2 => rfl

theorem Commit_of_allSucceed {σ : Type} (tasks : List (Task σ)) (st st1 : σ)
    (hs : allSucceed tasks st = some st1) :
    Commit tasks st = Outcome.returned none st1 ((List.range tasks.length).map Event.func) := by
  unfold Commit
  rw [validateLoop_passed tasks (allSucceed_hasErrorOutput tasks st st1 hs),
    execLoop_allSucceed tasks tasks 0 st st1 [] hs]
  simp [sweepLoop, List.range_eq_range']

theorem runAll_of_returns {σ : Type} :
    ∀ (fs : List (AnyValue σ)) (st : σ), (∀ f ∈ fs, f.Returns) → ∃ st2, runAll fs st = some st2 := by
  intro fs
  induction fs with
  | nil => intro st _; exact ⟨st, rfl⟩
  | cons f rest ih =>
    intro st h
    have hf := h f (List.mem_cons_self f rest) st
    cases hc : Call f st with
    | panicked => exact absurd hc hf
    | returned rs st1 =>
      obtain ⟨st2, h2⟩ := ih st1 (fun g hg => h g (List.mem_cons_of_mem f hg))
      exact ⟨st2, by simp [runAll, hc, h2]⟩

theorem failureOutcome_of_returns {σ : Type} (tasks : List (Task σ)) (i : Nat) (e : GoError)
    (st1 : σ) (hr : ∀ r ∈ rollbackValues (tasks.take (i + 1)), r.Returns) :
    ∃ st2, runAll (rollbackValues (tasks.take (i + 1))).reverse st1 = some st2 ∧
      failureOutcome tasks i e st1 =
        Outcome.returned (some (transactionFailed e)) st2
          ((List.range (i + 1)).map Event.func ++
            (declaredRollbacks (tasks.take (i + 1))).reverse) := by
  obtain ⟨st2, h2⟩ := runAll_of_returns (rollbackValues (tasks.take (i + 1))).reverse st1
    (fun r hr2 => hr r (List.mem_reverse.mp hr2))
  exact ⟨st2, h2, by simp [failureOutcome, h2]⟩

theorem filter_isRollback_funcs (l : List Nat) :
    (l.map Event.func).filter Event.isRollback = [] := by
  induction l with
  | nil => rfl
  | cons a rest ih => simp [List.filter, Event.isRollback, ih]

theorem filter_isFunc_funcs (l : List Nat) :
    (l.map Event.func).filter Event.isFunc = l.map Event.func := by
  induction l with
  | nil => rfl
  | cons a rest ih => simp [List.filter, Event.isFunc, ih]

theorem isRollback_of_mem_declared {σ : Type} (tasks : List (Task σ)) :
    ∀ ev ∈ declaredRollbacks tasks, ev.isRollback = true := by
  intro ev hev
  simp only [declaredRollbacks, List.mem_flatMap, List.mem_map] at hev
  obtain ⟨kt, _, j, _, hj⟩ := hev
  subst hj
  rfl

theorem filter_isRollback_declared {σ : Type} (tasks : List (Task σ)) :
    ((declaredRollbacks tasks).reverse).filter Event.isRollback =
      (declaredRollbacks tasks).reverse := by
  apply List.filter_eq_self.mpr
  intro ev hev
  exact isRollback_of_mem_declared tasks ev (List.mem_reverse.mp hev)

theorem filter_isFunc_declared {σ : Type} (tasks : List (Task σ)) :
    ((declaredRollbacks tasks).reverse).filter Event.isFunc = [] := by
  apply List.filter_eq_nil_iff.mpr
  intro ev hev
  have h := isRollback_of_mem_declared tasks ev (List.mem_reverse.mp hev)
  cases ev with
  | func i => simp [Event.isRollback] at h
  | rollback i j => simp [Event.isFunc]

theorem mem_declaredRollbacks {σ : Type} (tasks : List (Task σ)) (k j : Nat) :
    Event.rollback k j ∈ declaredRollbacks tasks ↔
      ∃ t, tasks[k]? = some t ∧ j < t.Rollbacks.length := by
  simp only [declaredRollbacks, List.mem_flatMap, List.mem_map, List.mem_range]
  constructor
  · rintro ⟨⟨k2, t⟩, hkt, j2, hj2, heq⟩
    simp only [Event.rollback.injEq] at heq
    obtain ⟨h1, h2⟩ := heq
    subst h1
    subst h2
    exact ⟨t, List.mk_mem_enum_iff_getElem?.mp hkt, hj2⟩
  · rintro ⟨t, ht, hj⟩
    exact ⟨(k, t), List.mk_mem_enum_iff_getElem?.mpr ht, j, hj, rfl⟩

theorem nodup_declaredRollbacks {σ : Type} (tasks : List (Task σ)) :
    (declaredRollbacks tasks).Nodup := by
  unfold declaredRollbacks
  rw [List.nodup_flatMap]
  constructor
  · intro kt _
    apply List.Nodup.map
    · intro a b hab
      simpa using hab
    · exact List.nodup_range _
  · have h1 : (tasks.enum.map Prod.fst).Nodup := by
      rw [List.enum_map_fst]
      exact List.nodup_range _
    have h2 : List.Pairwise (fun a b : Nat × Task σ => a.1 ≠ b.1) tasks.enum :=
      List.pairwise_map.mp h1
    refine h2.imp ?_
    intro a b hab ev ha hb
    simp only [List.mem_map, List.mem_range] at ha hb
    obtain ⟨j1, _, e1⟩ := ha
    obtain ⟨j2, _, e2⟩ := hb
    rw [← e2] at e1
    simp only [Event.rollback.injEq] at e1
    exact hab e1.1

theorem count_rollback_funcs (l : List Nat) (k j : Nat) :
    (l.map Event.func).count (Event.rollback k j) = 0 := by
  apply List.count_eq_zero_of_not_mem
  simp

theorem count_declared_take {σ : Type} (tasks : List (Task σ)) (i k j : Nat) :
    ((declaredRollbacks (tasks.take (i + 1))).reverse.count (Event.rollback k j) = 1 ∧
        collectedAt tasks i k j) ∨
      ((declaredRollbacks (tasks.take (i + 1))).reverse.count (Event.rollback k j) = 0 ∧
        ¬ collectedAt tasks i k j) := by
  rw [List.count_reverse]
  by_cases hm : Event.rollback k j ∈ declaredRollbacks (tasks.take (i + 1))
  · left
    refine ⟨List.count_eq_one_of_mem (nodup_declaredRollbacks _) hm, ?_⟩
    obtain ⟨t, ht, hj⟩ := (mem_declaredRollbacks _ k j).mp hm
    rw [List.getElem?_take] at ht
    by_cases hk : k < i + 1
    · simp only [hk, if_true] at ht
      exact ⟨by omega, t, ht, hj⟩
    · simp [hk] at ht
  · right
    refine ⟨List.count_eq_zero_of_not_mem hm, ?_⟩
    rintro ⟨hk, t, ht, hj⟩
    apply hm
    rw [mem_declaredRollbacks]
    refine ⟨t, ?_, hj⟩
    rw [List.getElem?_take_of_lt (by omega)]
    exact ht

theorem plainFunc_returns (n : Nat) : (plainFunc n).Returns := by
  intro st
  simp [plainFunc, Call, FuncType.acceptsNoArgs]

theorem okFunc_returns (n : Nat) : (okFunc n).Returns := by
  intro st
  simp [okFunc, Call, FuncType.acceptsNoArgs]

theorem failFunc_returns (n a : Nat) (text : String) : (failFunc n a text).Returns := by
  intro st
  simp [failFunc, Call, FuncType.acceptsNoArgs]

theorem transactionFailed_Error (e : GoError) :
    (transactionFailed e).Error = "transaction failed\ntask returned an error: " ++ e.Error := by
  simp only [transactionFailed, GoError.Error, GoError.joinText, ErrTransactionFailed, errorsNew]
  rw [← String.append_assoc]
  rfl

theorem validateLoop_of_isFunc {σ : Type} (tasks : List (Task σ))
    (hfun : ∀ t ∈ tasks, t.isFunc = true) :
    validateLoop tasks =
      if tasks.all Task.hasErrorOutput then Validation.passed else Validation.rejected := by
  induction tasks with
  | nil => rfl
  | cons t rest ih =>
    have h1 := hfun t (List.mem_cons_self t rest)
    have ih2 := ih (fun u hu => hfun u (List.mem_cons_of_mem t hu))
    unfold Task.isFunc at h1
    split at h1
    · rename_i f hf
      simp only [validateLoop, hf, hasErrorReturnType_func, List.all_cons, Task.hasErrorOutput]
      by_cases hmem : GoType.error ∈ f.type.out
      · simpa [hmem] using ih2
      · simp [hmem]
    · exact absurd h1 (by simp)

theorem step_congr {σ : Type} {t u : Task σ} (h : t.Func = u.Func) (st : σ) :
    t.step st = u.step st := by
  unfold Task.step
  rw [h]

theorem hasErrorOutput_congr {σ : Type} {t u : Task σ} (h : t.Func = u.Func) :
    t.hasErrorOutput = u.hasErrorOutput := by
  unfold Task.hasErrorOutput
  rw [h]

theorem firstFailure_congr {σ : Type} {tasks tasks2 : List (Task σ)}
    (h : List.Forall₂ Task.sameFuncAndCount tasks tasks2) :
    ∀ st : σ, firstFailure tasks st = firstFailure tasks2 st := by
  induction h with
  | nil => intro st; rfl
  | cons hab _ ih =>
    intro st
    simp only [firstFailure, step_congr hab.1 st, ih]

theorem hasErrorOutput_forall₂ {σ : Type} {tasks tasks2 : List (Task σ)}
    (h : List.Forall₂ Task.sameFuncAndCount tasks tasks2)
    (hv : ∀ t ∈ tasks, t.hasErrorOutput = true) : ∀ u ∈ tasks2, u.hasErrorOutput = true := by
  induction h with
  | nil => intro u hu; simp at hu
  | @cons a b l1 l2 hab _ ih =>
    intro u hu
    rcases List.mem_cons.mp hu with h1 | h1
    · subst h1
      rw [← hasErrorOutput_congr hab.1]
      exact hv a (List.mem_cons_self a l1)
    · exact ih (fun t ht => hv t (List.mem_cons_of_mem a ht)) u h1

theorem declaredFrom_congr {σ : Type} {tasks tasks2 : List (Task σ)}
    (h : List.Forall₂ Task.sameFuncAndCount tasks tasks2) :
    ∀ k : Nat,
      (tasks.enumFrom k).flatMap
          (fun kt => (List.range kt.2.Rollbacks.length).map (Event.rollback kt.1)) =
        (tasks2.enumFrom k).flatMap
          (fun kt => (List.range kt.2.Rollbacks.length).map (Event.rollback kt.1)) := by
  induction h with
  | nil => intro k; rfl
  | cons hab _ ih =>
    intro k
    simp only [List.enumFrom_cons, List.flatMap_cons, hab.2, ih]

theorem declaredRollbacks_congr {σ : Type} {tasks tasks2 : List (Task σ)}
    (h : List.Forall₂ Task.sameFuncAndCount tasks tasks2) :
    declaredRollbacks tasks = declaredRollbacks tasks2 :=
  declaredFrom_congr h 0

theorem runAll_congr {σ : Type} {fs gs : List (AnyValue σ)}
    (h : List.Forall₂ SameEffect fs gs) : ∀ st : σ, runAll fs st = runAll gs st := by
  induction h with
  | nil => intro st; rfl
  | @cons a b l1 l2 hab _ ih =>
    intro st
    have h1 := hab st
    unfold callWorld at h1
    simp only [runAll]
    cases ha : Call a st with
    | panicked =>
      cases hb : Call b st with
      | panicked => rfl
      | returned rs st1 => simp [ha, hb] at h1
    | returned rs st1 =>
      cases hb : Call b st with
      | panicked => simp [ha, hb] at h1
      | returned rs2 st2 =>
        simp only [ha, hb, Option.some.injEq] at h1
        subst h1
        exact ih st1

theorem isFunc_of_wellFormed {σ : Type} {t : Task σ} (hw : t.WellFormed) : t.isFunc = true := by
  obtain ⟨f, body, hf, _⟩ := hw
  simp [Task.isFunc, hf]

theorem step_of_wellFormed {σ : Type} {t : Task σ} (hw : t.WellFormed)
    (he : t.hasErrorOutput = true) (st : σ) :
    (∃ st1, t.step st = StepResult.succeeded st1) ∨
      (∃ e st1, t.step st = StepResult.failed e st1) := by
  obtain ⟨f, body, hf, hb, ha, hres⟩ := hw
  obtain ⟨results, st1, hcall, hty⟩ := hres st
  have hmem : GoType.error ∈ f.type.out := by
    simpa [Task.hasErrorOutput, hf] using he
  have hlt : f.type.out.indexOf GoType.error < f.type.out.length :=
    List.indexOf_lt_length.mpr hmem
  have hlen : results.length = f.type.out.length := hty.length_eq
  have hlt2 : f.type.out.indexOf GoType.error < results.length := by omega
  have hR := hty.get hlt2 hlt
  rw [List.indexOf_get hlt] at hR
  have hget : results[f.type.out.indexOf GoType.error]? =
      some (results.get ⟨f.type.out.indexOf GoType.error, hlt2⟩) :=
    List.getElem?_eq_getElem hlt2
  have hstep : t.step st =
      match results.get ⟨f.type.out.indexOf GoType.error, hlt2⟩ with
      | Value.nil => StepResult.succeeded st1
      | Value.err e => StepResult.failed e st1
      | Value.other _ => StepResult.stuck := by
    unfold Task.step
    rw [hf]
    simp only [hmem, if_true, Call, hb, ha, hcall, hget]
    cases results.get ⟨f.type.out.indexOf GoType.error, hlt2⟩ <;> rfl
  rw [hstep]
  cases hv : results.get ⟨f.type.out.indexOf GoType.error, hlt2⟩ with
  | nil => exact Or.inl ⟨st1, rfl⟩
  | err e => exact Or.inr ⟨e, st1, rfl⟩
  | other n => rw [hv] at hR; simp [Value.hasType] at hR

theorem run_of_wellFormed {σ : Type} :
    ∀ (tasks : List (Task σ)) (st : σ),
      (∀ t ∈ tasks, t.WellFormed) → (∀ t ∈ tasks, t.hasErrorOutput = true) →
      (∃ st1, allSucceed tasks st = some st1 ∧ firstFailure tasks st = none) ∨
        (∃ i e st1, firstFailure tasks st = some (i, e, st1) ∧ allSucceed tasks st = none) := by
  intro tasks
  induction tasks with
  | nil => intro st _ _; exact Or.inl ⟨st, rfl, rfl⟩
  | cons t rest ih =>
    intro st hw hv
    have hw2 : ∀ u ∈ rest, u.WellFormed := fun u hu => hw u (List.mem_cons_of_mem t hu)
    have hv2 : ∀ u ∈ rest, u.hasErrorOutput = true := fun u hu => hv u (List.mem_cons_of_mem t hu)
    rcases step_of_wellFormed (hw t (List.mem_cons_self t rest))
        (hv t (List.mem_cons_self t rest)) st with ⟨st1, h1⟩ | ⟨e, st1, h1⟩
    · rcases ih st1 hw2 hv2 with ⟨st2, h2, h3⟩ | ⟨i, e, st2, h2, h3⟩
      · exact Or.inl ⟨st2, by simp [allSucceed, h1, h2], by simp [firstFailure, h1, h3]⟩
      · exact Or.inr ⟨i + 1, e, st2, by simp [firstFailure, h1, h2], by simp [allSucceed, h1, h3]⟩
    · exact Or.inr ⟨0, e, st1, by simp [firstFailure, h1], by simp [allSucceed, h1]⟩

theorem returns_of_mem_take {σ : Type} (tasks : List (Task σ)) (n : Nat)
    (hr : ∀ r ∈ rollbackValues tasks, r.Returns) :
    ∀ r ∈ rollbackValues (tasks.take n), r.Returns := by
  intro r hm
  apply hr
  simp only [rollbackValues, List.mem_flatMap] at hm ⊢
  obtain ⟨t, ht, hrt⟩ := hm
  exact ⟨t, List.mem_of_mem_take ht, hrt⟩

/-- The three ways `Commit` ends on tasks whose `Func`s are well formed and
whose rollbacks return. -/
theorem Commit_cases {σ : Type} (tasks : List (Task σ)) (st : σ)
    (hw : ∀ t ∈ tasks, t.WellFormed) (hr : ∀ r ∈ rollbackValues tasks, r.Returns) :
    ((∃ t ∈ tasks, t.hasErrorOutput = false) ∧
        Commit tasks st = Outcome.returned (some ErrMustReturnError) st []) ∨
      ((∀ t ∈ tasks, t.hasErrorOutput = true) ∧
        ∃ st1 log, allSucceed tasks st = some st1 ∧ firstFailure tasks st = none ∧
          Commit tasks st = Outcome.returned none st1 log) ∨
      ((∀ t ∈ tasks, t.hasErrorOutput = true) ∧
        ∃ i e st1 st2 log, firstFailure tasks st = some (i, e, st1) ∧
          allSucceed tasks st = none ∧
          Commit tasks st = Outcome.returned (some (transactionFailed e)) st2 log) := by
  by_cases hv : ∀ t ∈ tasks, t.hasErrorOutput = true
  · rcases run_of_wellFormed tasks st hw hv with ⟨st1, h1, h2⟩ | ⟨i, e, st1, h1, h2⟩
    · exact Or.inr (Or.inl ⟨hv, st1, _, h1, h2, Commit_of_allSucceed tasks st st1 h1⟩)
    · obtain ⟨st2, _, hout⟩ :=
        failureOutcome_of_returns tasks i e st1 (returns_of_mem_take tasks (i + 1) hr)
      exact Or.inr (Or.inr ⟨hv, i, e, st1, st2, _, h1, h2,
        (Commit_of_firstFailure tasks st st1 i e hv h1).trans hout⟩)
  · have hbad : ∃ t ∈ tasks, t.hasErrorOutput = false := by
      by_contra hcon
      apply hv
      intro t ht
      by_contra hne
      exact hcon ⟨t, ht, by simpa using hne⟩
    left
    refine ⟨hbad, ?_⟩
    have hall : tasks.all Task.hasErrorOutput = false := by
      obtain ⟨t, ht, hb⟩ := hbad
      rw [List.all_eq_false]
      exact ⟨t, ht, by simp [hb]⟩
    unfold Commit
    rw [validateLoop_of_isFunc tasks (fun t ht => isFunc_of_wellFormed (hw t ht)), hall]
    rfl

theorem okFunc_wellFormed (n : Nat) (rs : List (AnyValue (List Nat))) :
    Task.WellFormed { Func := okFunc n, Rollbacks := rs } :=
  ⟨_, _, rfl, rfl, rfl, fun st => ⟨[Value.nil], st ++ [n], rfl, by simp [Value.hasType]⟩⟩

theorem failFunc_wellFormed (n a : Nat) (text : String) (rs : List (AnyValue (List Nat))) :
    Task.WellFormed { Func := failFunc n a text, Rollbacks := rs } :=
  ⟨_, _, rfl, rfl, rfl,
    fun st => ⟨[Value.err (errorsNew (Ptr.global a) text)], st ++ [n], rfl,
      by simp [Value.hasType]⟩⟩

theorem sampleFailing_wellFormed : ∀ t ∈ sampleFailing, t.WellFormed := by
  intro t ht
  simp only [sampleFailing, List.mem_cons, List.mem_singleton, List.not_mem_nil, or_false] at ht
  rcases ht with h | h | h <;> subst h
  · exact okFunc_wellFormed _ _
  · exact failFunc_wellFormed _ _ _ _
  · exact okFunc_wellFormed _ _

theorem sampleFailing_returns : ∀ r ∈ rollbackValues sampleFailing, r.Returns := by
  intro r hr
  simp only [sampleFailing, rollbackValues, List.flatMap_cons, List.flatMap_nil,
    List.append_nil, List.cons_append, List.nil_append, List.mem_cons, List.mem_singleton,
    List.not_mem_nil, or_false] at hr
  rcases hr with h | h | h | h <;> subst h <;> exact plainFunc_returns _

theorem not_all_of_bad {σ : Type} {tasks : List (Task σ)}
    (hbad : ∃ t ∈ tasks, t.hasErrorOutput = false) :
    ¬ ∀ t ∈ tasks, t.hasErrorOutput = true := by
  intro hall
  obtain ⟨t, ht, hb⟩ := hbad
  rw [hall t ht] at hb
  exact absurd hb (by simp)

theorem errMust_ne_transactionFailed (e : GoError) :
    ErrMustReturnError ≠ transactionFailed e := by
  simp [ErrMustReturnError, transactionFailed, errorsNew]

theorem errorsIs_transactionFailed (e : GoError) (n : Nat) (hp : e.ptr = Ptr.global n) :
    errorsIs (transactionFailed e) e = ErrTransactionFailed.same e := by
  cases e with
  | errorString p s =>
    simp only [GoError.ptr] at hp
    subst hp
    simp [transactionFailed, errorsIs, errorsIsAny, GoError.same, ErrTransactionFailed, errorsNew]
  | joinError p errs =>
    simp only [GoError.ptr] at hp
    subst hp
    simp [transactionFailed, errorsIs, errorsIsAny, GoError.same, ErrTransactionFailed, errorsNew]

theorem hasErrorOutput_of_hasErrorReturnType {σ : Type} {t : Task σ} {p : Int}
    (h : hasErrorReturnType (reflectTypeOf t.Func) = some (p, true)) :
    ∃ f, t.Func = AnyValue.func f ∧ GoType.error ∈ f.type.out ∧
      p = ((f.type.out.indexOf GoType.error : Nat) : Int) := by
  cases hF : t.Func with
  | nil => rw [hF] at h; simp [hasErrorReturnType, reflectTypeOf, reflectOuts] at h
  | nonFunc n => rw [hF] at h; simp [hasErrorReturnType, reflectTypeOf, reflectOuts] at h
  | func f =>
    rw [hF, hasErrorReturnType_func] at h
    by_cases hmem : GoType.error ∈ f.type.out
    · simp only [hmem, if_true, Option.some.injEq, Prod.mk.injEq, and_true] at h
      exact ⟨f, rfl, hmem, h.symm⟩
    · simp [hmem] at h

theorem validateLoop_passed_inv {σ : Type} (tasks : List (Task σ))
    (h : validateLoop tasks = Validation.passed) : ∀ t ∈ tasks, t.hasErrorOutput = true := by
  induction tasks with
  | nil => intro t ht; simp at ht
  | cons u rest ih =>
    intro t ht
    simp only [validateLoop] at h
    split at h
    · exact absurd h (by simp)
    · rename_i p hasErr hret
      cases hasErr with
      | false => simp at h
      | true =>
        simp only [Bool.not_true, Bool.false_eq_true, if_false] at h
        rcases List.mem_cons.mp ht with h1 | h1
        · subst h1
          obtain ⟨f, hf, hmem, _⟩ := hasErrorOutput_of_hasErrorReturnType hret
          simp [Task.hasErrorOutput, hf, hmem]
        · exact ih h t h1

theorem Commit_passed_not_errMust {σ : Type} (tasks : List (Task σ)) (st : σ)
    (h : validateLoop tasks = Validation.passed) :
    ¬ (Commit tasks st).returns (some ErrMustReturnError) := by
  rintro ⟨st2, log, hc⟩
  unfold Commit at hc
  rw [h] at hc
  simp only [] at hc
  split at hc
  · exact absurd hc (by simp)
  · split at hc
    · exact absurd hc (by simp)
    · split at hc
      · simp only [Outcome.returned.injEq] at hc
        have h1 := hc.1
        simp [errorsJoin, ErrMustReturnError, errorsNew] at h1
      · simp at hc

theorem Commit_errMust_iff {σ : Type} (tasks : List (Task σ)) (st : σ)
    (hfun : ∀ t ∈ tasks, t.isFunc = true) :
    (Commit tasks st).returns (some ErrMustReturnError) ↔
      ∃ t ∈ tasks, t.hasErrorOutput = false := by
  have hval := validateLoop_of_isFunc tasks hfun
  by_cases hall : tasks.all Task.hasErrorOutput = true
  · rw [hall, if_pos rfl] at hval
    constructor
    · intro h
      exact absurd h (Commit_passed_not_errMust tasks st hval)
    · rintro ⟨t, ht, hb⟩
      rw [List.all_eq_true.mp hall t ht] at hb
      exact absurd hb (by simp)
  · have hall2 : tasks.all Task.hasErrorOutput = false := by simpa using hall
    rw [hall2] at hval
    simp only [Bool.false_eq_true, if_false] at hval
    constructor
    · intro _
      obtain ⟨t, ht, hb⟩ := List.all_eq_false.mp hall2
      exact ⟨t, ht, by simpa using hb⟩
    · intro _
      refine ⟨st, [], ?_⟩
      unfold Commit
      rw [hval]

theorem step_of_call {σ : Type} {t : Task σ} {f : FuncValue σ} {st st1 : σ}
    {results : List Value} (hf : t.Func = AnyValue.func f) (hmem : GoType.error ∈ f.type.out)
    (hcall : Call (AnyValue.func f) st = CallResult.returned results st1) :
    t.step st =
      match results[f.type.out.indexOf GoType.error]? with
      | some Value.nil => StepResult.succeeded st1
      | some (Value.err e) => StepResult.failed e st1
      | _ => StepResult.stuck := by
  unfold Task.step
  rw [hf]
  simp only [hmem, if_true, hcall]

theorem execLoop_inv {σ : Type} (tasks : List (Task σ)) :
    ∀ (rest : List (Task σ)) (i : Nat) (st : σ) (log : List Event) (l : Locals σ),
      execLoop tasks rest i st log = some l →
      (l.ok = true ∧ l.funcsToExecute = [] ∧
          ∃ n, l.log = log ++ (List.range' i n).map Event.func) ∨
        (∃ j e, firstFailure rest st = some (j, e, l.st) ∧ l.ok = false ∧
          l.taskError = some e ∧
          l.funcsToExecute = collectLoop (i + j) tasks 0 [] ∧
          l.log = log ++ (List.range' i (j + 1)).map Event.func) := by
  intro rest
  induction rest with
  | nil =>
    intro i st log l h
    simp only [execLoop, Option.some.injEq] at h
    subst h
    exact Or.inl ⟨rfl, rfl, 0, by simp⟩
  | cons t rest ih =>
    intro i st log l h
    rw [execLoop] at h
    cases hret : hasErrorReturnType (reflectTypeOf t.Func) with
    | none => simp [hret] at h
    | some pr =>
      obtain ⟨p, b⟩ := pr
      cases b with
      | false =>
        simp only [hret, Bool.not_false, if_true, Option.some.injEq] at h
        subst h
        exact Or.inl ⟨rfl, rfl, 0, by simp⟩
      | true =>
        obtain ⟨f, hf, hmem, hp⟩ := hasErrorOutput_of_hasErrorReturnType hret
        subst hp
        simp only [hret, Bool.not_true, Bool.false_eq_true, if_false] at h
        rw [hf] at h
        cases hcall : Call (AnyValue.func f) st with
        | panicked => simp [hcall] at h
        | returned results st1 =>
          have hstep := step_of_call hf hmem hcall
          simp only [hcall, Int.toNat_ofNat] at h
          have hnn : ¬ ((List.indexOf GoType.error f.type.out : Nat) : Int) < 0 := by omega
          simp only [hnn, if_false] at h
          cases hres : results[List.indexOf GoType.error f.type.out]? with
          | none => simp [hres] at h
          | some r =>
            rw [hres] at hstep
            simp only [hres] at h
            cases r with
            | nil =>
              simp only [Value.IsNil] at h
              simp only [] at hstep
              rcases ih (i + 1) st1 _ l h with ⟨h1, h2, n, h3⟩ | ⟨j, e, h1, h2, h3, h4, h5⟩
              · refine Or.inl ⟨h1, h2, n + 1, ?_⟩
                rw [h3, List.range'_succ]
                simp
              · refine Or.inr ⟨j + 1, e, ?_, h2, h3, ?_, ?_⟩
                · simp [firstFailure, hstep, h1]
                · rw [h4]
                  congr 1
                  omega
                · rw [h5, List.range'_succ i (j + 1)]
                  simp
            | err e =>
              simp only [Value.IsNil, Value.asError, Option.some.injEq] at h
              simp only [] at hstep
              subst h
              exact Or.inr ⟨0, e, by simp [firstFailure, hstep], rfl, rfl, rfl, by simp⟩
            | other n => simp [Value.IsNil] at h

/-- Every way `Commit` can return: the validation loop rejected the tasks; or
no `Func` failed and only `Func`s were called; or the task at some index `i`
was the first to fail and the rollbacks of the tasks `0..i` were then called
last to first. -/
theorem Commit_returned_inv {σ : Type} (tasks : List (Task σ)) (st st2 : σ)
    (err : Option GoError) (log : List Event)
    (h : Commit tasks st = Outcome.returned err st2 log) :
    (err = some ErrMustReturnError ∧ st2 = st ∧ log = []) ∨
      (err = none ∧ ∃ n, log = (List.range n).map Event.func) ∨
      (∃ i e st1, firstFailure tasks st = some (i, e, st1) ∧
        (∀ t ∈ tasks, t.hasErrorOutput = true) ∧ err = some (transactionFailed e) ∧
        log = (List.range (i + 1)).map Event.func ++
          (declaredRollbacks (tasks.take (i + 1))).reverse ∧
        runAll (rollbackValues (tasks.take (i + 1))).reverse st1 = some st2) := by
  cases hval : validateLoop tasks with
  | panicked =>
    unfold Commit at h
    rw [hval] at h
    simp at h
  | rejected =>
    unfold Commit at h
    rw [hval] at h
    simp only [Outcome.returned.injEq] at h
    exact Or.inl ⟨h.1.symm, h.2.1.symm, h.2.2.symm⟩
  | passed =>
    have hv := validateLoop_passed_inv tasks hval
    cases hex : execLoop tasks tasks 0 st [] with
    | none =>
      unfold Commit at h
      rw [hval, hex] at h
      simp at h
    | some l =>
      rcases execLoop_inv tasks tasks 0 st [] l hex with ⟨h1, h2, n, h3⟩ |
          ⟨j, e, h1, _, _, _, _⟩
      · unfold Commit at h
        rw [hval, hex] at h
        simp only [h2, List.length_nil, sweepLoop, h1, Bool.not_true, Bool.false_eq_true,
          if_false, Outcome.returned.injEq] at h
        refine Or.inr (Or.inl ⟨h.1.symm, n, ?_⟩)
        rw [← h.2.2, h3, List.nil_append, List.range_eq_range']
      · rw [Commit_of_firstFailure tasks st l.st j e hv h1] at h
        unfold failureOutcome at h
        cases hrun : runAll (rollbackValues (tasks.take (j + 1))).reverse l.st with
        | none => simp [hrun] at h
        | some st3 =>
          simp only [hrun, Outcome.returned.injEq] at h
          refine Or.inr (Or.inr ⟨j, e, l.st, h1, hv, h.1.symm, h.2.2.symm, ?_⟩)
          rw [← h.2.1]
          exact hrun

theorem not_error_of_lt_indexOf :
    ∀ (outs : List GoType) (k : Nat), k < outs.indexOf GoType.error →
      outs[k]? ≠ some GoType.error := by
  intro outs
  induction outs with
  | nil => intro k hk; simp at hk
  | cons t rest ih =>
    intro k hk
    by_cases h : t = GoType.error
    · rw [List.indexOf_cons_eq rest h] at hk
      omega
    · rw [List.indexOf_cons_ne rest h] at hk
      cases k with
      | zero => simpa using h
      | succ k2 =>
        simp only [List.getElem?_cons_succ]
        exact ih k2 (by omega)

theorem firstFailure_take {σ : Type} :
    ∀ (tasks : List (Task σ)) (st st1 : σ) (i : Nat) (e : GoError),
      firstFailure tasks st = some (i, e, st1) →
      firstFailure (tasks.take (i + 1)) st = some (i, e, st1) := by
  intro tasks
  induction tasks with
  | nil => intro st st1 i e h; simp [firstFailure] at h
  | cons t rest ih =>
    intro st st1 i e h
    simp only [firstFailure] at h
    rw [List.take_succ_cons]
    simp only [firstFailure]
    split at h
    · rename_i st2 hstep
      split at h
      · rename_i j e2 st3 hrest
        simp only [Option.some.injEq, Prod.mk.injEq] at h
        obtain ⟨h1, h2, h3⟩ := h
        subst h1
        subst h2
        subst h3
        simp [hstep, ih st2 st3 j e2 hrest]
      · exact absurd h (by simp)
    · rename_i e2 st2 hstep
      simp only [Option.some.injEq, Prod.mk.injEq] at h
      obtain ⟨h1, h2, h3⟩ := h
      subst h1
      subst h2
      subst h3
      simp [hstep]
    · exact absurd h (by simp)

theorem failureOutcome_take {σ : Type} (tasks : List (Task σ)) (i : Nat) (e : GoError)
    (st1 : σ) : failureOutcome (tasks.take (i + 1)) i e st1 = failureOutcome tasks i e st1 := by
  unfold failureOutcome
  rw [List.take_take, Nat.min_self]

theorem pairwise_funcs_then_rollbacks (n : Nat) (rbs : List Event)
    (h : ∀ ev ∈ rbs, ev.isRollback = true) :
    List.Pairwise (fun a b : Event => a.isRollback = true → b.isRollback = true)
      ((List.range n).map Event.func ++ rbs) := by
  rw [List.pairwise_append]
  refine ⟨?_, ?_, ?_⟩
  · rw [List.pairwise_map]
    exact List.pairwise_of_forall (fun a b hab => by simp [Event.isRollback] at hab)
  · exact List.pairwise_of_forall_mem_list (fun a _ b hb _ => h b hb)
  · intro a ha b _ hab
    obtain ⟨k, _, hk⟩ := List.mem_map.mp ha
    subst hk
    simp [Event.isRollback] at hab

theorem validateLoop_agree {σ : Type} {tasks tasks2 : List (Task σ)}
    (h : List.Forall₂ Task.agreeOnFirstError tasks tasks2) :
    validateLoop tasks = validateLoop tasks2 := by
  induction h with
  | nil => rfl
  | @cons t u l1 l2 hab _ ih =>
    obtain ⟨⟨f, f2, hf, hf2, hty, _⟩, _⟩ := hab
    simp only [validateLoop, hf, hf2, hasErrorReturnType_func, ← hty, ih]

theorem collectLoop_agree {σ : Type} (i : Nat) {tasks tasks2 : List (Task σ)}
    (h : List.Forall₂ Task.agreeOnFirstError tasks tasks2) :
    ∀ (k : Nat) (acc : List (Pending σ)),
      collectLoop i tasks k acc = collectLoop i tasks2 k acc := by
  induction h with
  | nil => intro k acc; rfl
  | @cons t u l1 l2 hab _ ih =>
    intro k acc
    simp only [collectLoop, hab.2, ih]

theorem execLoop_agree {σ : Type} {tasks tasks2 : List (Task σ)}
    (hcol : ∀ i, collectLoop i tasks 0 [] = collectLoop i tasks2 0 [])
    {rest rest2 : List (Task σ)} (h : List.Forall₂ Task.agreeOnFirstError rest rest2) :
    ∀ (i : Nat) (st : σ) (log : List Event),
      execLoop tasks rest i st log = execLoop tasks2 rest2 i st log := by
  induction h with
  | nil => intro i st log; rfl
  | @cons t u l1 l2 hab _ ih =>
    intro i st log
    obtain ⟨⟨f, f2, hf, hf2, hty, hview⟩, _⟩ := hab
    have hv := hview st
    unfold firstErrorView at hv
    rw [execLoop, execLoop, hf, hf2, hasErrorReturnType_func, hasErrorReturnType_func, ← hty]
    rw [← hty] at hv
    by_cases hmem : GoType.error ∈ f.type.out
    · simp only [hmem, if_true, Bool.not_true, Bool.false_eq_true, if_false]
      cases hc1 : Call (AnyValue.func f) st with
      | panicked =>
        cases hc2 : Call (AnyValue.func f2) st with
        | panicked => rfl
        | returned rs2 s2 => simp [hc1, hc2] at hv
      | returned rs1 s1 =>
        cases hc2 : Call (AnyValue.func f2) st with
        | panicked => simp [hc1, hc2] at hv
        | returned rs2 s2 =>
          simp only [hc1, hc2, Option.some.injEq, Prod.mk.injEq] at hv
          obtain ⟨hres, hst⟩ := hv
          subst hst
          simp only [Int.toNat_ofNat, hres, hcol, ih]
    · simp [hmem]

theorem allSucceed_snoc {σ : Type} (t : Task σ) :
    ∀ (pre : List (Task σ)) (st st0 st1 : σ), allSucceed pre st = some st0 →
      t.step st0 = StepResult.succeeded st1 → allSucceed (pre ++ [t]) st = some st1 := by
  intro pre
  induction pre with
  | nil =>
    intro st st0 st1 h hstep
    simp only [allSucceed, Option.some.injEq] at h
    subst h
    simp [allSucceed, hstep]
  | cons u rest ih =>
    intro st st0 st1 h hstep
    simp only [allSucceed] at h
    split at h
    · rename_i st2 hu
      simp only [List.cons_append, allSucceed, hu]
      exact ih st2 st0 st1 h hstep
    · exact absurd h (by simp)

theorem firstFailure_snoc {σ : Type} (t : Task σ) (e : GoError) :
    ∀ (pre : List (Task σ)) (st st0 st1 : σ), allSucceed pre st = some st0 →
      t.step st0 = StepResult.failed e st1 →
      firstFailure (pre ++ [t]) st = some (pre.length, e, st1) := by
  intro pre
  induction pre with
  | nil =>
    intro st st0 st1 h hstep
    simp only [allSucceed, Option.some.injEq] at h
    subst h
    simp [firstFailure, hstep]
  | cons u rest ih =>
    intro st st0 st1 h hstep
    simp only [allSucceed] at h
    split at h
    · rename_i st2 hu
      have h2 := ih st2 st0 st1 h hstep
      simp only [List.cons_append, firstFailure, hu, List.length_cons]
      have h3 : rest.append [t] = rest ++ [t] := rfl
      rw [h3, h2]
    · exact absurd h (by simp)

theorem hasErrorOutput_snoc {σ : Type} (pre : List (Task σ)) (t : Task σ) (st st0 : σ)
    (f : FuncValue σ) (hpre : allSucceed pre st = some st0) (hf : t.Func = AnyValue.func f)
    (hmem : GoType.error ∈ f.type.out) : ∀ u ∈ pre ++ [t], u.hasErrorOutput = true := by
  intro u hu
  rcases List.mem_append.mp hu with h1 | h1
  · exact allSucceed_hasErrorOutput pre st st0 hpre u h1
  · rw [List.mem_singleton] at h1
    subst h1
    simp [Task.hasErrorOutput, hf, hmem]

theorem multiOutput_agree (n : Nat) : AgreeOnFirstError (lateErrorFunc n) (noErrorFunc n) :=
  ⟨_, _, rfl, rfl, rfl, fun _ => rfl⟩

theorem not_returns_of_panicked {σ : Type} {o : Outcome σ} (h : o = Outcome.panicked)
    (err : Option GoError) : ¬ o.returns err := by
  rintro ⟨st2, log, h2⟩
  rw [h] at h2
  exact absurd h2 (by simp)

theorem read_fixed {σ : Type} (tasks : List (Task σ)) (st : σ) :
    (TaskSlice.fixed tasks).read st = tasks := by
  apply List.ext_getElem
  · simp [TaskSlice.read, TaskSlice.fixed]
  · intro n h1 h2
    simp [TaskSlice.read, TaskSlice.fixed, List.getElem?_eq_getElem h2]

theorem execLoopOn_fixed {σ : Type} (tasks : List (Task σ)) :
    ∀ (k i : Nat) (st : σ) (log : List Event), k = tasks.length - i →
      execLoopOn (TaskSlice.fixed tasks) k i st log =
        execLoop tasks (tasks.drop i) i st log := by
  intro k
  induction k with
  | zero =>
    intro i st log hk
    have hdrop : tasks.drop i = [] := List.drop_eq_nil_of_le (by omega)
    rw [hdrop]
    rfl
  | succ k ih =>
    intro i st log hk
    have hlt : i < tasks.length := by omega
    have hdrop : tasks.drop i = tasks[i] :: tasks.drop (i + 1) := List.drop_eq_getElem_cons hlt
    have helem : (TaskSlice.fixed tasks).elem st i = tasks[i] := by
      simp [TaskSlice.fixed, List.getElem?_eq_getElem hlt]
    rw [hdrop, execLoopOn, execLoop, helem]
    simp only [ih (i + 1) _ _ (by omega), read_fixed]

theorem CommitOn_fixed {σ : Type} (tasks : List (Task σ)) (st : σ) :
    CommitOn (TaskSlice.fixed tasks) st = Commit tasks st := by
  unfold CommitOn Commit
  rw [read_fixed]
  have h := execLoopOn_fixed tasks tasks.length 0 st [] (by simp)
  rw [List.drop_zero] at h
  have hlen : (TaskSlice.fixed tasks).len = tasks.length := rfl
  rw [hlen, h]

theorem typed_at_first_error {results : List Value} {outs : List GoType}
    (hty : List.Forall₂ (fun v ty => v.hasType ty = true) results outs)
    (hmem : GoType.error ∈ outs) :
    results[outs.indexOf GoType.error]? = some Value.nil ∨
      ∃ e, results[outs.indexOf GoType.error]? = some (Value.err e) := by
  have hlt : outs.indexOf GoType.error < outs.length := List.indexOf_lt_length.mpr hmem
  have hlen : results.length = outs.length := hty.length_eq
  have hlt2 : outs.indexOf GoType.error < results.length := by omega
  have hR := hty.get hlt2 hlt
  rw [List.indexOf_get hlt] at hR
  have hget : results[outs.indexOf GoType.error]? =
      some (results.get ⟨outs.indexOf GoType.error, hlt2⟩) := List.getElem?_eq_getElem hlt2
  rw [hget]
  cases hv : results.get ⟨outs.indexOf GoType.error, hlt2⟩ with
  | nil => exact Or.inl rfl
  | err e => exact Or.inr ⟨e, rfl⟩
  | other n => rw [hv] at hR; simp [Value.hasType] at hR

theorem func_of_hasErrorOutput {σ : Type} {t : Task σ} (h : t.hasErrorOutput = true) :
    ∃ f, t.Func = AnyValue.func f ∧ GoType.error ∈ f.type.out ∧
      hasErrorReturnType (reflectTypeOf t.Func) =
        some (((f.type.out.indexOf GoType.error : Nat) : Int), true) := by
  obtain ⟨p, hp⟩ := hasErrorReturnType_of_hasErrorOutput h
  obtain ⟨f, hf, hmem, hpos⟩ := hasErrorOutput_of_hasErrorReturnType hp
  subst hpos
  exact ⟨f, hf, hmem, hp⟩

/-- On tasks that pass validation the execution loop does not take the branch
`!returnsError`: when it ends with `ok` still true, it has called the `Func`
of every task it ranged over, and each returned a nil error. -/
theorem execLoop_ok_of_validated {σ : Type} (tasks : List (Task σ)) :
    ∀ (rest : List (Task σ)) (i : Nat) (st : σ) (log : List Event) (l : Locals σ),
      (∀ t ∈ rest, t.hasErrorOutput = true) →
      execLoop tasks rest i st log = some l → l.ok = true →
      l.log = log ++ (List.range' i rest.length).map Event.func ∧
        allSucceed rest st = some l.st ∧ l.funcsToExecute = [] := by
  intro rest
  induction rest with
  | nil =>
    intro i st log l _ h _
    simp only [execLoop, Option.some.injEq] at h
    subst h
    simp [allSucceed]
  | cons t rest ih =>
    intro i st log l hv h hok
    obtain ⟨f, hf, hmem, hret⟩ := func_of_hasErrorOutput (hv t (List.mem_cons_self t rest))
    have hv2 : ∀ u ∈ rest, u.hasErrorOutput = true :=
      fun u hu => hv u (List.mem_cons_of_mem t hu)
    rw [execLoop] at h
    simp only [hret, Bool.not_true, Bool.false_eq_true, if_false] at h
    rw [hf] at h
    cases hcall : Call (AnyValue.func f) st with
    | panicked => simp [hcall] at h
    | returned results st1 =>
      have hstep := step_of_call hf hmem hcall
      simp only [hcall, Int.toNat_ofNat] at h
      have hnn : ¬ ((List.indexOf GoType.error f.type.out : Nat) : Int) < 0 := by omega
      simp only [hnn, if_false] at h
      cases hres : results[List.indexOf GoType.error f.type.out]? with
      | none => simp [hres] at h
      | some r =>
        rw [hres] at hstep
        simp only [hres] at h
        cases r with
        | nil =>
          simp only [Value.IsNil] at h
          simp only [] at hstep
          obtain ⟨h1, h2, h3⟩ := ih (i + 1) st1 _ l hv2 h hok
          refine ⟨?_, ?_, h3⟩
          · rw [h1, List.length_cons, List.range'_succ]
            simp
          · simp [allSucceed, hstep, h2]
        | err e =>
          simp only [Value.IsNil, Value.asError, Option.some.injEq] at h
          subst h
          simp at hok
        | other n => simp [Value.IsNil] at h

/-- On tasks that pass validation, and with results typed as `reflect`
returns them, the execution loop panics only when the call of a `Func`
panics: not at the re-check, not at `results[errPos]`, not at `IsNil`. -/
theorem execLoop_none_of_validated {σ : Type} (tasks : List (Task σ)) :
    ∀ (rest : List (Task σ)) (i : Nat) (st : σ) (log : List Event),
      (∀ t ∈ rest, t.hasErrorOutput = true) → ResultsTyped rest →
      execLoop tasks rest i st log = none →
      ∃ t ∈ rest, ∃ st0, Call t.Func st0 = CallResult.panicked := by
  intro rest
  induction rest with
  | nil =>
    intro i st log _ _ h
    simp [execLoop] at h
  | cons t rest ih =>
    intro i st log hv hty h
    obtain ⟨f, hf, hmem, hret⟩ := func_of_hasErrorOutput (hv t (List.mem_cons_self t rest))
    have hv2 : ∀ u ∈ rest, u.hasErrorOutput = true :=
      fun u hu => hv u (List.mem_cons_of_mem t hu)
    have hty2 : ResultsTyped rest :=
      fun u hu => hty u (List.mem_cons_of_mem t hu)
    rw [execLoop] at h
    simp only [hret, Bool.not_true, Bool.false_eq_true, if_false] at h
    cases hcall : Call t.Func st with
    | panicked => exact ⟨t, List.mem_cons_self t rest, st, hcall⟩
    | returned results st1 =>
      have htyped := hty t (List.mem_cons_self t rest) f hf st st1 results hcall
      simp only [hcall, Int.toNat_ofNat] at h
      have hnn : ¬ ((List.indexOf GoType.error f.type.out : Nat) : Int) < 0 := by omega
      simp only [hnn, if_false] at h
      rcases typed_at_first_error htyped hmem with hres | ⟨e, hres⟩
      · simp only [hres, Value.IsNil] at h
        obtain ⟨u, hu, st0, hpanic⟩ := ih (i + 1) st1 _ hv2 hty2 h
        exact ⟨u, List.mem_cons_of_mem t hu, st0, hpanic⟩
      · simp [hres, Value.IsNil] at h

/-- On tasks that pass validation `Commit` returns nil only after it has
called the `Func` of every task, each of which returned a nil error. -/
theorem Commit_nil_of_validated {σ : Type} (tasks : List (Task σ)) (st st2 : σ)
    (log : List Event) (hval : validateLoop tasks = Validation.passed)
    (h : Commit tasks st = Outcome.returned none st2 log) :
    log = (List.range tasks.length).map Event.func ∧ allSucceed tasks st = some st2 := by
  have hv := validateLoop_passed_inv tasks hval
  cases hex : execLoop tasks tasks 0 st [] with
  | none =>
    unfold Commit at h
    rw [hval, hex] at h
    simp at h
  | some l =>
    cases hok : l.ok with
    | true =>
      obtain ⟨h1, h2, h3⟩ := execLoop_ok_of_validated tasks tasks 0 st [] l hv hex hok
      unfold Commit at h
      rw [hval, hex] at h
      simp only [h3, List.length_nil, sweepLoop, hok, Bool.not_true, Bool.false_eq_true,
        if_false, Outcome.returned.injEq, true_and] at h
      rw [← h.1, ← h.2, h1, h2, List.nil_append, List.range_eq_range']
      exact ⟨rfl, rfl⟩
    | false =>
      unfold Commit at h
      rw [hval, hex] at h
      simp only [] at h
      split at h
      · simp at h
      · rename_i st3 log3 _
        simp [hok, errorsJoin] at h

/-! ## The claims -/

/-- C1 as stated fails: `sampleRollbackPanics` passes validation and its
second task is the first to fail, so the claim asks for the rollback calls
`rollback 1 0`, then `rollback 0 0`; the sweep starts with the rollback of the
failing task, whose call panics, and `Commit` ends there without calling the
rollback of the first task. -/
theorem commit_sweep_stops_at_panicking_rollback :
    (∀ t ∈ sampleRollbackPanics, t.hasErrorOutput = true) ∧
      firstFailure sampleRollbackPanics [] =
        some (1, errorsNew (Ptr.global 7) "error", [1, 2]) ∧
      (declaredRollbacks (sampleRollbackPanics.take (1 + 1))).reverse =
        [Event.rollback 1 0, Event.rollback 0 0] ∧
      (collectLoop 1 sampleRollbackPanics 0 []).map Pending.event =
        [Event.rollback 0 0, Event.rollback 1 0] ∧
      Call panicRollback [1, 2] = CallResult.panicked ∧
      sweepLoop (collectLoop 1 sampleRollbackPanics 0 []) 2 [1, 2]
        [Event.func 0, Event.func 1] = none ∧
      Commit sampleRollbackPanics [] = Outcome.panicked := by
  refine ⟨?_, rfl, rfl, rfl, rfl, rfl, rfl⟩
  simp [sampleRollbackPanics, Task.hasErrorOutput, okFunc, failFunc]

/-- C1, amended: when every task passes validation, the task at index `i` is the first
whose `Func` returns a non-nil error, and the rollbacks of the tasks `0..i`
return when called, `Commit` returns and the rollback calls it made are, in
order, the reverse of the rollbacks declared by the tasks `0..i` (the failing
task's own rollbacks first, each task's rollbacks last to first): the world it
leaves is the one these calls produce, a rollback of a task up to `i` is called
exactly once, and any other rollback is not called. -/
theorem commit_rollbacks_reverse_collected {σ : Type} (tasks : List (Task σ)) (st st1 : σ)
    (i : Nat) (e : GoError) (hv : ∀ t ∈ tasks, t.hasErrorOutput = true)
    (hf : firstFailure tasks st = some (i, e, st1))
    (hr : ∀ r ∈ rollbackValues (tasks.take (i + 1)), r.Returns) :
    ∃ err st2 log, Commit tasks st = Outcome.returned err st2 log ∧
      log.filter Event.isRollback = (declaredRollbacks (tasks.take (i + 1))).reverse ∧
      runAll (rollbackValues (tasks.take (i + 1))).reverse st1 = some st2 ∧
      ∀ k j, (log.count (Event.rollback k j) = 1 ∧ collectedAt tasks i k j) ∨
        (log.count (Event.rollback k j) = 0 ∧ ¬ collectedAt tasks i k j) := by
  obtain ⟨st2, hrun, hout⟩ := failureOutcome_of_returns tasks i e st1 hr
  refine ⟨_, st2, _, (Commit_of_firstFailure tasks st st1 i e hv hf).trans hout, ?_, hrun, ?_⟩
  · rw [List.filter_append, filter_isRollback_funcs, filter_isRollback_declared]
    rfl
  · intro k j
    rw [List.count_append, count_rollback_funcs, Nat.zero_add]
    exact count_declared_take tasks i k j

/-- C1 amended, on the sample transaction: the second task fails, and the rollbacks
run in the order 20, 11, 10. -/
theorem commit_rollbacks_reverse_collected_witness :
    ∃ err st2 log, Commit sampleFailing [] = Outcome.returned err st2 log ∧
      log.filter Event.isRollback =
        (declaredRollbacks (sampleFailing.take (1 + 1))).reverse ∧
      runAll (rollbackValues (sampleFailing.take (1 + 1))).reverse [1, 2] = some st2 ∧
      ∀ k j, (log.count (Event.rollback k j) = 1 ∧ collectedAt sampleFailing 1 k j) ∨
        (log.count (Event.rollback k j) = 0 ∧ ¬ collectedAt sampleFailing 1 k j) :=
  commit_rollbacks_reverse_collected sampleFailing [] [1, 2] 1
    (errorsNew (Ptr.global 7) "error")
    (by simp [sampleFailing, Task.hasErrorOutput, okFunc, failFunc])
    rfl
    (by
      intro r hr
      simp only [sampleFailing, rollbackValues, List.take, List.flatMap_cons, List.flatMap_nil,
        List.append_nil, List.cons_append, List.nil_append, List.mem_cons, List.mem_singleton,
        List.not_mem_nil, or_false] at hr
      rcases hr with h | h | h <;> subst h <;> exact plainFunc_returns _)

/-- C2 as stated fails: `sampleRollbackUnary` passes validation and its `Func`
returns `errors.New("error")`, but its rollback needs an argument, the sweep
panics, and `Commit` returns no error at all. -/
theorem commit_returns_nothing_when_rollback_panics :
    (∀ t ∈ sampleRollbackUnary, t.hasErrorOutput = true) ∧
      firstFailure sampleRollbackUnary [] =
        some (0, errorsNew (Ptr.global 7) "error", [1]) ∧
      Commit sampleRollbackUnary [] = Outcome.panicked ∧
      ¬ ∃ err, (Commit sampleRollbackUnary []).returns (some err) := by
  refine ⟨?_, rfl, rfl, ?_⟩
  · simp [sampleRollbackUnary, Task.hasErrorOutput, failFunc]
  · rintro ⟨err, h⟩
    exact not_returns_of_panicked rfl (some err) h

/-- C2, amended: when every task passes validation, the first `Func` to return a
non-nil error returns `e`, and the rollbacks of the tasks up to it return when
called, `Commit` returns a non-nil error whose text is "transaction failed", a
newline, "task returned an error: " and the text of `e`. -/
theorem commit_error_text {σ : Type} (tasks : List (Task σ)) (st st1 : σ)
    (i : Nat) (e : GoError) (hv : ∀ t ∈ tasks, t.hasErrorOutput = true)
    (hf : firstFailure tasks st = some (i, e, st1))
    (hr : ∀ r ∈ rollbackValues (tasks.take (i + 1)), r.Returns) :
    ∃ err st2 log, Commit tasks st = Outcome.returned (some err) st2 log ∧
      err.Error = "transaction failed\ntask returned an error: " ++ e.Error := by
  obtain ⟨st2, _, hout⟩ := failureOutcome_of_returns tasks i e st1 hr
  exact ⟨_, st2, _, (Commit_of_firstFailure tasks st st1 i e hv hf).trans hout,
    transactionFailed_Error e⟩

/-- C2 amended, on the sample transaction: the text is that of the test "task with
error". -/
theorem commit_error_text_witness :
    ∃ err st2 log, Commit sampleFailing [] = Outcome.returned (some err) st2 log ∧
      err.Error = "transaction failed\ntask returned an error: " ++
        (errorsNew (Ptr.global 7) "error").Error :=
  commit_error_text sampleFailing [] [1, 2] 1 (errorsNew (Ptr.global 7) "error")
    (by simp [sampleFailing, Task.hasErrorOutput, okFunc, failFunc])
    rfl
    (by
      intro r hr
      simp only [sampleFailing, rollbackValues, List.take, List.flatMap_cons, List.flatMap_nil,
        List.append_nil, List.cons_append, List.nil_append, List.mem_cons, List.mem_singleton,
        List.not_mem_nil, or_false] at hr
      rcases hr with h | h | h <;> subst h <;> exact plainFunc_returns _)

/-- C3 as stated fails: in `sampleNilThenMalformed` the second `Func` is a
function with no `error` output, but the first `Func` is nil, the validation
loop panics on it, and `Commit` does not return `ErrMustReturnError`. -/
theorem commit_panics_on_nil_before_malformed :
    (∃ t ∈ sampleNilThenMalformed, t.isFunc = true ∧ t.hasErrorOutput = false) ∧
      validateLoop sampleNilThenMalformed = Validation.panicked ∧
      Commit sampleNilThenMalformed [] = Outcome.panicked ∧
      ¬ (Commit sampleNilThenMalformed []).returns (some ErrMustReturnError) := by
  refine ⟨⟨{ Func := plainFunc 2, Rollbacks := [] }, by simp [sampleNilThenMalformed],
    by simp [Task.isFunc, plainFunc], by simp [Task.hasErrorOutput, plainFunc]⟩, rfl, rfl,
    not_returns_of_panicked rfl _⟩

/-- C3, amended: when every `Func` is a function and at least one of them, at any
position, has no output of type `error`, `Commit` returns `ErrMustReturnError`
itself, a value that wraps nothing and is not matched by
`ErrTransactionFailed`, calls nothing and leaves the world as it was. -/
theorem commit_malformed_calls_nothing {σ : Type} (tasks : List (Task σ)) (st : σ)
    (hfun : ∀ t ∈ tasks, t.isFunc = true)
    (hbad : ∃ t ∈ tasks, t.hasErrorOutput = false) :
    Commit tasks st = Outcome.returned (some ErrMustReturnError) st [] ∧
      ErrMustReturnError.Unwrap = [] ∧
      errorsIs ErrMustReturnError ErrTransactionFailed = false := by
  refine ⟨?_, rfl, by decide⟩
  have hall : tasks.all Task.hasErrorOutput = false := by
    obtain ⟨t, ht, hb⟩ := hbad
    rw [List.all_eq_false]
    exact ⟨t, ht, by simp [hb]⟩
  unfold Commit
  rw [validateLoop_of_isFunc tasks hfun, hall]
  rfl

/-- C3 amended, on a transaction whose second `Func` has no `error` output: the first
`Func`, which would fail, is not called. -/
theorem commit_malformed_calls_nothing_witness :
    Commit sampleMalformed [] = Outcome.returned (some ErrMustReturnError) [] [] ∧
      ErrMustReturnError.Unwrap = [] ∧
      errorsIs ErrMustReturnError ErrTransactionFailed = false :=
  commit_malformed_calls_nothing sampleMalformed []
    (by simp [sampleMalformed, Task.isFunc, okFunc, failFunc, plainFunc])
    ⟨{ Func := plainFunc 2, Rollbacks := [plainFunc 20] },
      by simp [sampleMalformed], by simp [Task.hasErrorOutput, plainFunc]⟩

/-- C4: when every task passes validation, the task at index `i` is the first
whose `Func` returns a non-nil error, and the rollbacks of the tasks `0..i`
return when called, the `Func` calls `Commit` made are those of the tasks
`0, 1, ..., i`, once each and in this order; no `Func` of a later task is
called. -/
theorem commit_funcs_up_to_failure {σ : Type} (tasks : List (Task σ)) (st st1 : σ)
    (i : Nat) (e : GoError) (hv : ∀ t ∈ tasks, t.hasErrorOutput = true)
    (hf : firstFailure tasks st = some (i, e, st1))
    (hr : ∀ r ∈ rollbackValues (tasks.take (i + 1)), r.Returns) :
    ∃ err st2 log, Commit tasks st = Outcome.returned err st2 log ∧
      log.filter Event.isFunc = (List.range (i + 1)).map Event.func ∧
      ∀ k, log.count (Event.func k) = if k ≤ i then 1 else 0 := by
  obtain ⟨st2, _, hout⟩ := failureOutcome_of_returns tasks i e st1 hr
  refine ⟨_, st2, _, (Commit_of_firstFailure tasks st st1 i e hv hf).trans hout, ?_, ?_⟩
  · rw [List.filter_append, filter_isFunc_funcs, filter_isFunc_declared, List.append_nil]
  · intro k
    have h0 : (declaredRollbacks (tasks.take (i + 1))).reverse.count (Event.func k) = 0 := by
      apply List.count_eq_zero_of_not_mem
      intro hm
      have h := isRollback_of_mem_declared _ _ (List.mem_reverse.mp hm)
      simp [Event.isRollback] at h
    rw [List.count_append, h0, Nat.add_zero]
    by_cases hk : k ≤ i
    · rw [if_pos hk]
      apply List.count_eq_one_of_mem
      · apply List.Nodup.map
        · intro a b hab
          simpa using hab
        · exact List.nodup_range _
      · exact List.mem_map.mpr ⟨k, List.mem_range.mpr (by omega), rfl⟩
    · rw [if_neg hk]
      apply List.count_eq_zero_of_not_mem
      intro hm
      obtain ⟨k2, hk2, heq⟩ := List.mem_map.mp hm
      simp only [Event.func.injEq] at heq
      subst heq
      exact hk (by have := List.mem_range.mp hk2; omega)

/-- C4, on the sample transaction: the first two `Func`s are called, the
third is not. -/
theorem commit_funcs_up_to_failure_witness :
    ∃ err st2 log, Commit sampleFailing [] = Outcome.returned err st2 log ∧
      log.filter Event.isFunc = (List.range (1 + 1)).map Event.func ∧
      ∀ k, log.count (Event.func k) = if k ≤ 1 then 1 else 0 :=
  commit_funcs_up_to_failure sampleFailing [] [1, 2] 1 (errorsNew (Ptr.global 7) "error")
    (by simp [sampleFailing, Task.hasErrorOutput, okFunc, failFunc])
    rfl
    (by
      intro r hr
      simp only [sampleFailing, rollbackValues, List.take, List.flatMap_cons, List.flatMap_nil,
        List.append_nil, List.cons_append, List.nil_append, List.mem_cons, List.mem_singleton,
        List.not_mem_nil, or_false] at hr
      rcases hr with h | h | h <;> subst h <;> exact plainFunc_returns _)

/-- C5: when the `Func`s of the tasks, run in order, all return a nil error
(so that every task passes validation), `Commit` returns nil, the calls it
made are the `Func`s of the tasks `0, ..., N-1`, once each and in this order,
and it calls no rollback, whatever the rollbacks are. -/
theorem commit_all_succeed {σ : Type} (tasks : List (Task σ)) (st st1 : σ)
    (hs : allSucceed tasks st = some st1) :
    (∀ t ∈ tasks, t.hasErrorOutput = true) ∧
      ∃ log, Commit tasks st = Outcome.returned none st1 log ∧
        log = (List.range tasks.length).map Event.func ∧
        log.filter Event.isRollback = [] := by
  refine ⟨allSucceed_hasErrorOutput tasks st st1 hs, _, Commit_of_allSucceed tasks st st1 hs,
    rfl, filter_isRollback_funcs _⟩

/-- C5, on a transaction whose rollbacks include one that returns an error and
a nil value: both `Func`s run, no rollback does. -/
theorem commit_all_succeed_witness :
    (∀ t ∈ sampleSucceeding, t.hasErrorOutput = true) ∧
      ∃ log, Commit sampleSucceeding [] = Outcome.returned none [1, 2] log ∧
        log = (List.range sampleSucceeding.length).map Event.func ∧
        log.filter Event.isRollback = [] :=
  commit_all_succeed sampleSucceeding [] [1, 2] rfl

/-- C6: take tasks that pass validation, the first failure at index `i` with
error `e`, and a second list of tasks that differs from the first only in its
rollbacks, replaced one for one by any values that return when called
(functions that return a non-nil error, a nil error or nothing).  `Commit`
returns the same error, the transaction-failed error of `e`, on both lists and
makes the same calls: the `Func`s of the tasks `0..i`, then every rollback of
the collected list, last to first.  On each list the world `Commit` leaves is
the one that calling every collected rollback value of that list, last to
first, produces from the world the failing `Func` left, whatever the rollbacks
return.  When each replacement does to the world what the original did, the
two runs also leave the same world. -/
theorem commit_ignores_rollback_results {σ : Type} (tasks tasks2 : List (Task σ))
    (st st1 : σ) (i : Nat) (e : GoError)
    (hsame : List.Forall₂ Task.sameFuncAndCount tasks tasks2)
    (hv : ∀ t ∈ tasks, t.hasErrorOutput = true)
    (hf : firstFailure tasks st = some (i, e, st1))
    (hr : ∀ r ∈ rollbackValues (tasks.take (i + 1)), r.Returns)
    (hr2 : ∀ r ∈ rollbackValues (tasks2.take (i + 1)), r.Returns) :
    ∃ err st2 st3 log, Commit tasks st = Outcome.returned (some err) st2 log ∧
      Commit tasks2 st = Outcome.returned (some err) st3 log ∧
      log.filter Event.isRollback = (declaredRollbacks (tasks2.take (i + 1))).reverse ∧
      (List.Forall₂ SameEffect (rollbackValues (tasks.take (i + 1)))
          (rollbackValues (tasks2.take (i + 1))) → st2 = st3) ∧
      err = transactionFailed e ∧
      log = (List.range (i + 1)).map Event.func ++
        (declaredRollbacks (tasks2.take (i + 1))).reverse ∧
      runAll (rollbackValues (tasks.take (i + 1))).reverse st1 = some st2 ∧
      runAll (rollbackValues (tasks2.take (i + 1))).reverse st1 = some st3 := by
  have hf2 : firstFailure tasks2 st = some (i, e, st1) := by
    rw [← firstFailure_congr hsame]
    exact hf
  have hv2 := hasErrorOutput_forall₂ hsame hv
  have hd : declaredRollbacks (tasks.take (i + 1)) = declaredRollbacks (tasks2.take (i + 1)) :=
    declaredRollbacks_congr (List.forall₂_take (i + 1) hsame)
  obtain ⟨st2, hrun, hout⟩ := failureOutcome_of_returns tasks i e st1 hr
  obtain ⟨st3, hrun2, hout2⟩ := failureOutcome_of_returns tasks2 i e st1 hr2
  rw [hd] at hout
  refine ⟨_, st2, st3, _, (Commit_of_firstFailure tasks st st1 i e hv hf).trans hout,
    (Commit_of_firstFailure tasks2 st st1 i e hv2 hf2).trans hout2, ?_, ?_, rfl, rfl,
    hrun, hrun2⟩
  · rw [List.filter_append, filter_isRollback_funcs, filter_isRollback_declared]
    rfl
  · intro heff
    have h := runAll_congr (List.rel_reverse heff) st1
    rw [hrun, hrun2] at h
    exact Option.some.inj h

/-- C6, on the sample transaction and the one whose rollbacks are replaced:
the rollback called first returns a non-nil error, and the two remaining
rollbacks are called after it all the same, as the journal `[1, 2, 20, 11, 10]`
shows; the returned error and the calls are those of the original list. -/
theorem commit_ignores_rollback_results_witness :
    (∃ err st2 st3 log, Commit sampleFailing [] = Outcome.returned (some err) st2 log ∧
      Commit sampleFailingReplaced [] = Outcome.returned (some err) st3 log ∧
      log.filter Event.isRollback =
        (declaredRollbacks (sampleFailingReplaced.take (1 + 1))).reverse ∧
      (List.Forall₂ SameEffect (rollbackValues (sampleFailing.take (1 + 1)))
          (rollbackValues (sampleFailingReplaced.take (1 + 1))) → st2 = st3) ∧
      err = transactionFailed (errorsNew (Ptr.global 7) "error") ∧
      log = (List.range (1 + 1)).map Event.func ++
        (declaredRollbacks (sampleFailingReplaced.take (1 + 1))).reverse ∧
      runAll (rollbackValues (sampleFailing.take (1 + 1))).reverse [1, 2] = some st2 ∧
      runAll (rollbackValues (sampleFailingReplaced.take (1 + 1))).reverse [1, 2] =
        some st3) ∧
      Commit sampleFailingReplaced [] =
        Outcome.returned (some (transactionFailed (errorsNew (Ptr.global 7) "error")))
          [1, 2, 20, 11, 10]
          [Event.func 0, Event.func 1, Event.rollback 1 0, Event.rollback 0 1,
            Event.rollback 0 0] ∧
      Commit sampleFailing [] = Commit sampleFailingReplaced [] :=
  ⟨commit_ignores_rollback_results sampleFailing sampleFailingReplaced [] [1, 2] 1
    (errorsNew (Ptr.global 7) "error")
    (List.Forall₂.cons ⟨rfl, rfl⟩
      (List.Forall₂.cons ⟨rfl, rfl⟩ (List.Forall₂.cons ⟨rfl, rfl⟩ List.Forall₂.nil)))
    (by simp [sampleFailing, Task.hasErrorOutput, okFunc, failFunc])
    rfl
    (by
      intro r hr
      simp only [sampleFailing, rollbackValues, List.take, List.flatMap_cons, List.flatMap_nil,
        List.append_nil, List.cons_append, List.nil_append, List.mem_cons, List.mem_singleton,
        List.not_mem_nil, or_false] at hr
      rcases hr with h | h | h <;> subst h <;> exact plainFunc_returns _)
    (by
      intro r hr
      simp only [sampleFailingReplaced, rollbackValues, List.take, List.flatMap_cons,
        List.flatMap_nil, List.append_nil, List.cons_append, List.nil_append, List.mem_cons,
        List.mem_singleton, List.not_mem_nil, or_false] at hr
      rcases hr with h | h | h <;> subst h
      · exact okFunc_returns _
      · exact plainFunc_returns _
      · exact failFunc_returns _ _ _),
    rfl, rfl⟩

/-- C7 as stated fails: the `Func`s of `sampleRollbackNil` and of
`sampleFuncPanics` are functions without parameters that have an `error`
output.  In the first a `Func` returns a non-nil error, yet `Commit` does not
return the transaction-failed error: the nil rollback makes it panic.  In the
second the `Func` itself panics.  Neither run ends in one of the three
outcomes. -/
theorem commit_panic_is_a_fourth_outcome :
    (∀ t ∈ sampleRollbackNil, ∃ f, t.Func = AnyValue.func f ∧ f.type.numIn = 0) ∧
      (∀ t ∈ sampleRollbackNil, t.hasErrorOutput = true) ∧
      firstFailure sampleRollbackNil [] = some (0, errorsNew (Ptr.global 7) "error", [1]) ∧
      Commit sampleRollbackNil [] = Outcome.panicked ∧
      ¬ (∃ e, (Commit sampleRollbackNil []).returns (some (transactionFailed e))) ∧
      ¬ (Commit sampleRollbackNil []).returns none ∧
      ¬ (Commit sampleRollbackNil []).returns (some ErrMustReturnError) ∧
      (∀ t ∈ sampleFuncPanics, ∃ f, t.Func = AnyValue.func f ∧ f.type.numIn = 0) ∧
      (∀ t ∈ sampleFuncPanics, t.hasErrorOutput = true) ∧
      Commit sampleFuncPanics [] = Outcome.panicked ∧
      ¬ (∃ e, (Commit sampleFuncPanics []).returns (some (transactionFailed e))) ∧
      ¬ (Commit sampleFuncPanics []).returns none ∧
      ¬ (Commit sampleFuncPanics []).returns (some ErrMustReturnError) := by
  refine ⟨?_, ?_, rfl, rfl, ?_, not_returns_of_panicked rfl _, not_returns_of_panicked rfl _,
    ?_, ?_, rfl, ?_, not_returns_of_panicked rfl _, not_returns_of_panicked rfl _⟩
  · intro t ht
    simp only [sampleRollbackNil, List.mem_singleton] at ht
    subst ht
    exact ⟨_, rfl, rfl⟩
  · simp [sampleRollbackNil, Task.hasErrorOutput, failFunc]
  · rintro ⟨e, h⟩
    exact not_returns_of_panicked rfl _ h
  · intro t ht
    simp only [sampleFuncPanics, List.mem_singleton] at ht
    subst ht
    exact ⟨_, rfl, rfl⟩
  · simp [sampleFuncPanics, Task.hasErrorOutput, panickingFunc]
  · rintro ⟨e, h⟩
    exact not_returns_of_panicked rfl _ h

/-- C7, amended: for tasks whose `Func`s are functions that take no argument and
return, and whose rollbacks return when called, `Commit` ends in exactly one
of three outcomes: it returns `ErrMustReturnError` iff some `Func` has no
`error` output; it returns nil iff every `Func` has an `error` output and
every `Func`, run in order, returns a nil error; it returns the joined
transaction-failed error iff every `Func` has an `error` output and some
`Func`, run in order, returns a non-nil error. -/
theorem commit_three_outcomes {σ : Type} (tasks : List (Task σ)) (st : σ)
    (hw : ∀ t ∈ tasks, t.WellFormed) (hr : ∀ r ∈ rollbackValues tasks, r.Returns) :
    ((Commit tasks st).returns (some ErrMustReturnError) ↔
        ∃ t ∈ tasks, t.hasErrorOutput = false) ∧
      ((Commit tasks st).returns none ↔
        (∀ t ∈ tasks, t.hasErrorOutput = true) ∧ ∃ st1, allSucceed tasks st = some st1) ∧
      ((∃ e, (Commit tasks st).returns (some (transactionFailed e))) ↔
        (∀ t ∈ tasks, t.hasErrorOutput = true) ∧
          ∃ i e st1, firstFailure tasks st = some (i, e, st1)) ∧
      ((Commit tasks st).returns (some ErrMustReturnError) ∨ (Commit tasks st).returns none ∨
        ∃ e, (Commit tasks st).returns (some (transactionFailed e))) ∧
      ¬ ((Commit tasks st).returns (some ErrMustReturnError) ∧ (Commit tasks st).returns none) ∧
      ¬ ((Commit tasks st).returns (some ErrMustReturnError) ∧
        ∃ e, (Commit tasks st).returns (some (transactionFailed e))) ∧
      ¬ ((Commit tasks st).returns none ∧
        ∃ e, (Commit tasks st).returns (some (transactionFailed e))) := by
  rcases Commit_cases tasks st hw hr with ⟨hbad, hc⟩ | ⟨hv, st1, log, hs, hf, hc⟩ |
      ⟨hv, i, e, st1, st2, log, hf, hs, hc⟩
  · have hA : (Commit tasks st).returns (some ErrMustReturnError) := ⟨st, [], hc⟩
    have hB : ¬ (Commit tasks st).returns none := by
      rintro ⟨s, l, h⟩
      rw [hc] at h
      simp at h
    have hC : ¬ ∃ e2, (Commit tasks st).returns (some (transactionFailed e2)) := by
      rintro ⟨e2, s, l, h⟩
      rw [hc] at h
      simp only [Outcome.returned.injEq, Option.some.injEq] at h
      exact errMust_ne_transactionFailed e2 h.1
    have hnall := not_all_of_bad hbad
    exact ⟨⟨fun _ => hbad, fun _ => hA⟩, ⟨fun h => absurd h hB, fun h => absurd h.1 hnall⟩,
      ⟨fun h => absurd h hC, fun h => absurd h.1 hnall⟩, Or.inl hA, fun h => hB h.2,
      fun h => hC h.2, fun h => hB h.1⟩
  · have hB : (Commit tasks st).returns none := ⟨st1, log, hc⟩
    have hA : ¬ (Commit tasks st).returns (some ErrMustReturnError) := by
      rintro ⟨s, l, h⟩
      rw [hc] at h
      simp at h
    have hC : ¬ ∃ e2, (Commit tasks st).returns (some (transactionFailed e2)) := by
      rintro ⟨e2, s, l, h⟩
      rw [hc] at h
      simp at h
    refine ⟨⟨fun h => absurd h hA, fun h => absurd hv (not_all_of_bad h)⟩,
      ⟨fun _ => ⟨hv, st1, hs⟩, fun _ => hB⟩, ⟨fun h => absurd h hC, ?_⟩, Or.inr (Or.inl hB),
      fun h => hA h.1, fun h => hA h.1, fun h => hC h.2⟩
    rintro ⟨_, i, e, s, h⟩
    rw [hf] at h
    simp at h
  · have hC : ∃ e2, (Commit tasks st).returns (some (transactionFailed e2)) := ⟨e, st2, log, hc⟩
    have hA : ¬ (Commit tasks st).returns (some ErrMustReturnError) := by
      rintro ⟨s, l, h⟩
      rw [hc] at h
      simp only [Outcome.returned.injEq, Option.some.injEq] at h
      exact errMust_ne_transactionFailed e h.1.symm
    have hB : ¬ (Commit tasks st).returns none := by
      rintro ⟨s, l, h⟩
      rw [hc] at h
      simp at h
    refine ⟨⟨fun h => absurd h hA, fun h => absurd hv (not_all_of_bad h)⟩,
      ⟨fun h => absurd h hB, ?_⟩, ⟨fun _ => ⟨hv, i, e, st1, hf⟩, fun _ => hC⟩,
      Or.inr (Or.inr hC), fun h => hA h.1, fun h => hA h.1, fun h => hB h.1⟩
    rintro ⟨_, s, h⟩
    rw [hs] at h
    simp at h

/-- C7 amended, on the sample transaction, which ends in the third outcome. -/
theorem commit_three_outcomes_witness :
    ((Commit sampleFailing []).returns (some ErrMustReturnError) ↔
        ∃ t ∈ sampleFailing, t.hasErrorOutput = false) ∧
      ((Commit sampleFailing []).returns none ↔
        (∀ t ∈ sampleFailing, t.hasErrorOutput = true) ∧
          ∃ st1, allSucceed sampleFailing [] = some st1) ∧
      ((∃ e, (Commit sampleFailing []).returns (some (transactionFailed e))) ↔
        (∀ t ∈ sampleFailing, t.hasErrorOutput = true) ∧
          ∃ i e st1, firstFailure sampleFailing [] = some (i, e, st1)) ∧
      ((Commit sampleFailing []).returns (some ErrMustReturnError) ∨
        (Commit sampleFailing []).returns none ∨
        ∃ e, (Commit sampleFailing []).returns (some (transactionFailed e))) ∧
      ¬ ((Commit sampleFailing []).returns (some ErrMustReturnError) ∧
        (Commit sampleFailing []).returns none) ∧
      ¬ ((Commit sampleFailing []).returns (some ErrMustReturnError) ∧
        ∃ e, (Commit sampleFailing []).returns (some (transactionFailed e))) ∧
      ¬ ((Commit sampleFailing []).returns none ∧
        ∃ e, (Commit sampleFailing []).returns (some (transactionFailed e))) :=
  commit_three_outcomes sampleFailing [] sampleFailing_wellFormed sampleFailing_returns

/-- C8 as stated fails: on the sample transaction the second task fails with
`errors.New("error")`, and `errors.Is` on the error `Commit` returns succeeds
for `ErrTransactionFailed` but not for that error. -/
theorem commit_does_not_wrap_task_error :
    firstFailure sampleFailing [] = some (1, errorsNew (Ptr.global 7) "error", [1, 2]) ∧
      Commit sampleFailing [] =
        Outcome.returned (some (transactionFailed (errorsNew (Ptr.global 7) "error")))
          [1, 2, 20, 11, 10]
          [Event.func 0, Event.func 1, Event.rollback 1 0, Event.rollback 0 1,
            Event.rollback 0 0] ∧
      errorsIs (transactionFailed (errorsNew (Ptr.global 7) "error")) ErrTransactionFailed
        = true ∧
      errorsIs (transactionFailed (errorsNew (Ptr.global 7) "error"))
        (errorsNew (Ptr.global 7) "error") = false := by
  refine ⟨rfl, rfl, by decide, by decide⟩

/-- C8, amended: when every task passes validation, the first failing `Func`
returns `e`, and the rollbacks of the tasks up to it return when called, the
error `Commit` returns wraps `ErrTransactionFailed` (`errors.Is` succeeds for
it) and carries `e` as text only: its second element is a new error with the
text "task returned an error: " followed by the text of `e`, which wraps
nothing.  For an `e` allocated outside the call, `errors.Is` on the returned
error succeeds for `e` exactly when `e` is `ErrTransactionFailed` itself. -/
theorem commit_error_wraps_marker_and_text {σ : Type} (tasks : List (Task σ)) (st st1 : σ)
    (i : Nat) (e : GoError) (hv : ∀ t ∈ tasks, t.hasErrorOutput = true)
    (hf : firstFailure tasks st = some (i, e, st1))
    (hr : ∀ r ∈ rollbackValues (tasks.take (i + 1)), r.Returns) :
    ∃ err st2 log, Commit tasks st = Outcome.returned (some err) st2 log ∧
      errorsIs err ErrTransactionFailed = true ∧
      err.Unwrap =
        [ErrTransactionFailed,
          errorsNew (Ptr.fresh 0) ("task returned an error: " ++ e.Error)] ∧
      (errorsNew (Ptr.fresh 0) ("task returned an error: " ++ e.Error)).Unwrap = [] ∧
      ∀ n, e.ptr = Ptr.global n → errorsIs err e = ErrTransactionFailed.same e := by
  obtain ⟨st2, _, hout⟩ := failureOutcome_of_returns tasks i e st1 hr
  refine ⟨_, st2, _, (Commit_of_firstFailure tasks st st1 i e hv hf).trans hout, ?_, rfl, rfl,
    fun n hn => errorsIs_transactionFailed e n hn⟩
  simp [transactionFailed, errorsIs, errorsIsAny, GoError.same, ErrTransactionFailed, errorsNew]

/-- C8 amended, on the sample transaction. -/
theorem commit_error_wraps_marker_and_text_witness :
    ∃ err st2 log, Commit sampleFailing [] = Outcome.returned (some err) st2 log ∧
      errorsIs err ErrTransactionFailed = true ∧
      err.Unwrap =
        [ErrTransactionFailed,
          errorsNew (Ptr.fresh 0)
            ("task returned an error: " ++ (errorsNew (Ptr.global 7) "error").Error)] ∧
      (errorsNew (Ptr.fresh 0)
          ("task returned an error: " ++ (errorsNew (Ptr.global 7) "error").Error)).Unwrap
        = [] ∧
      ∀ n, (errorsNew (Ptr.global 7) "error").ptr = Ptr.global n →
        errorsIs err (errorsNew (Ptr.global 7) "error") =
          ErrTransactionFailed.same (errorsNew (Ptr.global 7) "error") :=
  commit_error_wraps_marker_and_text sampleFailing [] [1, 2] 1
    (errorsNew (Ptr.global 7) "error")
    (by simp [sampleFailing, Task.hasErrorOutput, okFunc, failFunc])
    rfl
    (returns_of_mem_take sampleFailing (1 + 1) sampleFailing_returns)

/-- C9 as stated fails: `Commit` panics on a task whose `Func` is nil, is not
a function, needs an argument, is the nil function, or panics itself, and on a
failing task one of whose rollbacks is nil, is not a function or needs an
argument. -/
theorem commit_panics_on_malformed_values :
    Commit [({ Func := AnyValue.nil, Rollbacks := [] } : Task (List Nat))] [] =
        Outcome.panicked ∧
      Commit [({ Func := AnyValue.nonFunc 0, Rollbacks := [] } : Task (List Nat))] [] =
        Outcome.panicked ∧
      Commit [({ Func := unaryFunc, Rollbacks := [] } : Task (List Nat))] [] =
        Outcome.panicked ∧
      Commit [({ Func := nilFunc, Rollbacks := [] } : Task (List Nat))] [] =
        Outcome.panicked ∧
      Commit [({ Func := panickingFunc, Rollbacks := [] } : Task (List Nat))] [] =
        Outcome.panicked ∧
      Commit [({ Func := failFunc 1 7 "error", Rollbacks := [AnyValue.nil] } :
        Task (List Nat))] [] = Outcome.panicked ∧
      Commit [({ Func := failFunc 1 7 "error", Rollbacks := [AnyValue.nonFunc 0] } :
        Task (List Nat))] [] = Outcome.panicked ∧
      Commit [({ Func := failFunc 1 7 "error", Rollbacks := [unaryFunc] } :
        Task (List Nat))] [] = Outcome.panicked := by
  refine ⟨rfl, rfl, rfl, rfl, rfl, rfl, rfl, rfl⟩

/-- C9, amended: for tasks whose `Func`s are functions that take no argument
and return, and whose rollbacks return when called, `Commit` does not panic:
it returns nil, `ErrMustReturnError`, or the transaction-failed error. -/
theorem commit_returns_terminal_outcome {σ : Type} (tasks : List (Task σ)) (st : σ)
    (hw : ∀ t ∈ tasks, t.WellFormed) (hr : ∀ r ∈ rollbackValues tasks, r.Returns) :
    Commit tasks st ≠ Outcome.panicked ∧
      ((Commit tasks st).returns none ∨ (Commit tasks st).returns (some ErrMustReturnError) ∨
        ∃ e, (Commit tasks st).returns (some (transactionFailed e))) := by
  rcases Commit_cases tasks st hw hr with ⟨_, hc⟩ | ⟨_, st1, log, _, _, hc⟩ |
      ⟨_, i, e, st1, st2, log, _, _, hc⟩
  · exact ⟨by rw [hc]; simp, Or.inr (Or.inl ⟨st, [], hc⟩)⟩
  · exact ⟨by rw [hc]; simp, Or.inl ⟨st1, log, hc⟩⟩
  · exact ⟨by rw [hc]; simp, Or.inr (Or.inr ⟨e, st2, log, hc⟩)⟩

/-- C9 amended, on the sample transaction. -/
theorem commit_returns_terminal_outcome_witness :
    Commit sampleFailing [] ≠ Outcome.panicked ∧
      ((Commit sampleFailing []).returns none ∨
        (Commit sampleFailing []).returns (some ErrMustReturnError) ∨
        ∃ e, (Commit sampleFailing []).returns (some (transactionFailed e))) :=
  commit_returns_terminal_outcome sampleFailing [] sampleFailing_wellFormed
    sampleFailing_returns

/-- C10: `Commit` called with no task returns nil, calls nothing and leaves
the world as it was. -/
theorem commit_no_tasks {σ : Type} (st : σ) :
    Commit ([] : List (Task σ)) st = Outcome.returned none st [] := by
  rfl

/-- C11 as stated fails: `sampleMalformedThenNil` is a permutation of
`sampleNilThenMalformed`; on the first `Commit` returns `ErrMustReturnError`
at its first task, on the second the validation loop meets the nil `Func`
first and panics. -/
theorem commit_malformed_order_matters_with_nil :
    sampleMalformedThenNil.Perm sampleNilThenMalformed ∧
      Commit sampleMalformedThenNil [] =
        Outcome.returned (some ErrMustReturnError) [] [] ∧
      (Commit sampleMalformedThenNil []).returns (some ErrMustReturnError) ∧
      Commit sampleNilThenMalformed [] = Outcome.panicked ∧
      ¬ (Commit sampleNilThenMalformed []).returns (some ErrMustReturnError) :=
  ⟨List.Perm.swap _ _ _, rfl, ⟨[], [], rfl⟩, rfl, not_returns_of_panicked rfl _⟩

/-- C11, amended: for tasks whose `Func`s are all functions, and every permutation of
them, `Commit` returns `ErrMustReturnError` on the permuted list iff it does on
the original list; on either list it does so iff some task's `Func` has no
`error` output, whatever the order and the world. -/
theorem commit_malformed_order_independent {σ : Type} (tasks tasks2 : List (Task σ))
    (st st2 : σ) (hp : tasks.Perm tasks2) (hfun : ∀ t ∈ tasks, t.isFunc = true) :
    ((Commit tasks2 st2).returns (some ErrMustReturnError) ↔
        (Commit tasks st).returns (some ErrMustReturnError)) ∧
      ((Commit tasks st).returns (some ErrMustReturnError) ↔
        ∃ t ∈ tasks, t.hasErrorOutput = false) := by
  have hfun2 : ∀ t ∈ tasks2, t.isFunc = true := fun t ht => hfun t (hp.mem_iff.mpr ht)
  have h1 := Commit_errMust_iff tasks st hfun
  have h2 := Commit_errMust_iff tasks2 st2 hfun2
  refine ⟨?_, h1⟩
  rw [h1, h2]
  constructor
  · rintro ⟨t, ht, hb⟩
    exact ⟨t, hp.mem_iff.mpr ht, hb⟩
  · rintro ⟨t, ht, hb⟩
    exact ⟨t, hp.mem_iff.mp ht, hb⟩

/-- C11 amended, on the malformed sample and the list with its first two tasks
exchanged. -/
theorem commit_malformed_order_independent_witness :
    ((Commit sampleMalformedSwapped []).returns (some ErrMustReturnError) ↔
        (Commit sampleMalformed []).returns (some ErrMustReturnError)) ∧
      ((Commit sampleMalformed []).returns (some ErrMustReturnError) ↔
        ∃ t ∈ sampleMalformed, t.hasErrorOutput = false) :=
  commit_malformed_order_independent sampleMalformed sampleMalformedSwapped [] []
    (List.Perm.swap _ _ _)
    (by simp [sampleMalformed, Task.isFunc, okFunc, failFunc, plainFunc])

/-- C12 as stated fails: in the transaction of the test "task with error and
rollback" the task at index 0 is the one that fails, no `Func` of a later task
is called, and the rollback of the task at index 0 is called all the same. -/
theorem commit_runs_rollbacks_of_failing_task :
    firstFailure sampleFirstFails [] = some (0, errorsNew (Ptr.global 7) "error", [1]) ∧
      Commit sampleFirstFails [] =
        Outcome.returned (some (transactionFailed (errorsNew (Ptr.global 7) "error")))
          [1, 10] [Event.func 0, Event.rollback 0 0] ∧
      Event.rollback 0 0 ∈ [Event.func 0, Event.rollback 0 0] ∧
      ¬ ∃ k, 0 < k ∧ Event.func k ∈ [Event.func 0, Event.rollback 0 0] := by
  refine ⟨rfl, rfl, by decide, ?_⟩
  rintro ⟨k, hk, hm⟩
  simp at hm
  omega

/-- C12, amended: in every run of `Commit` that returns, a rollback of the
task at index `j` is called only when the `Func` of a task at an index `i`
with `j ≤ i` is the first to fail: the failing task itself or a later one.
`Commit` then returns the transaction-failed error. -/
theorem commit_rollback_only_up_to_failure {σ : Type} (tasks : List (Task σ)) (st st2 : σ)
    (err : Option GoError) (log : List Event) (j p : Nat)
    (h : Commit tasks st = Outcome.returned err st2 log)
    (hm : Event.rollback j p ∈ log) :
    ∃ i e st1, firstFailure tasks st = some (i, e, st1) ∧ j ≤ i ∧
      err = some (transactionFailed e) ∧ Event.func i ∈ log := by
  rcases Commit_returned_inv tasks st st2 err log h with ⟨_, _, h3⟩ | ⟨_, n, h2⟩ |
      ⟨i, e, st1, hf, _, herr, hlog, _⟩
  · rw [h3] at hm
    simp at hm
  · rw [h2] at hm
    simp at hm
  · refine ⟨i, e, st1, hf, ?_, herr, ?_⟩
    · rw [hlog] at hm
      rcases List.mem_append.mp hm with h1 | h1
      · simp at h1
      · obtain ⟨t, ht, _⟩ := (mem_declaredRollbacks _ j p).mp (List.mem_reverse.mp h1)
        rw [List.getElem?_take] at ht
        by_cases hj : j < i + 1
        · omega
        · simp [hj] at ht
    · rw [hlog]
      exact List.mem_append_left _ (List.mem_map.mpr ⟨i, List.mem_range.mpr (by omega), rfl⟩)

/-- C12 amended, on the sample transaction: the rollback of the failing task
at index 1 is called. -/
theorem commit_rollback_only_up_to_failure_witness :
    ∃ i e st1, firstFailure sampleFailing [] = some (i, e, st1) ∧ 1 ≤ i ∧
      some (transactionFailed (errorsNew (Ptr.global 7) "error")) =
        some (transactionFailed e) ∧
      Event.func i ∈ [Event.func 0, Event.func 1, Event.rollback 1 0, Event.rollback 0 1,
        Event.rollback 0 0] :=
  commit_rollback_only_up_to_failure sampleFailing [] [1, 2, 20, 11, 10]
    (some (transactionFailed (errorsNew (Ptr.global 7) "error")))
    [Event.func 0, Event.func 1, Event.rollback 1 0, Event.rollback 0 1, Event.rollback 0 0]
    1 0 rfl (by decide)

/-- C13: on a function type, `hasErrorReturnType` returns `(i, true)` with `i`
the smallest index of an output of type `error` when there is one, so that
`0 ≤ i` and `i` is less than the number of outputs, and `(-1, false)` when no
output has type `error`, as for a function without outputs. -/
theorem hasErrorReturnType_first_error_index (t : FuncType) :
    (GoType.error ∈ t.out →
        ∃ i : Nat, hasErrorReturnType (some (ReflectType.func t)) = some ((i : Int), true) ∧
          0 ≤ (i : Int) ∧ i < t.out.length ∧ t.out[i]? = some GoType.error ∧
          ∀ k, k < i → t.out[k]? ≠ some GoType.error) ∧
      (GoType.error ∉ t.out →
        hasErrorReturnType (some (ReflectType.func t)) = some (-1, false)) ∧
      (t.out = [] → hasErrorReturnType (some (ReflectType.func t)) = some (-1, false)) := by
  have heq : hasErrorReturnType (some (ReflectType.func t)) =
      some (if GoType.error ∈ t.out then (((t.out.indexOf GoType.error : Nat) : Int), true)
        else (-1, false)) := by
    simp [hasErrorReturnType, reflectOuts, hasErrorReturnTypeLoop_eq]
  refine ⟨?_, ?_, ?_⟩
  · intro hmem
    have hlt : t.out.indexOf GoType.error < t.out.length := List.indexOf_lt_length.mpr hmem
    refine ⟨t.out.indexOf GoType.error, ?_, Int.natCast_nonneg _, hlt, ?_,
      fun k hk => not_error_of_lt_indexOf t.out k hk⟩
    · rw [heq, if_pos hmem]
    · rw [List.getElem?_eq_getElem hlt, List.getElem_indexOf hlt]
  · intro hmem
    rw [heq, if_neg hmem]
  · intro hnil
    rw [heq, hnil]
    simp

/-- C13, on the type of a `func() (int, error, error)`: the index is 1. -/
theorem hasErrorReturnType_first_error_index_witness :
    ∃ i : Nat, hasErrorReturnType (some (ReflectType.func sampleFuncType)) =
        some ((i : Int), true) ∧
      0 ≤ (i : Int) ∧ i < sampleFuncType.out.length ∧
      sampleFuncType.out[i]? = some GoType.error ∧
      ∀ k, k < i → sampleFuncType.out[k]? ≠ some GoType.error :=
  (hasErrorReturnType_first_error_index sampleFuncType).1 (by decide)

/-- C14: `Commit` decides from the value at the first `error` output alone.
First, two lists of tasks with the same rollbacks whose `Func`s have the same
types and, called, leave the same worlds and the same values at the first
`error` output have the same outcome under `Commit`, whatever the `Func`s
return at their other outputs, a later non-nil `error` output included.
Second, when the `Func`s of the tasks before `t` all return a nil error and the
call of the `Func` of `t` returns the value `v` at its first `error` output,
the transaction that ends with `t` succeeds when `v` is nil and fails with `e`
when `v` is the non-nil error `e`. -/
theorem commit_decides_on_first_error_output {σ : Type} :
    (∀ (tasks tasks2 : List (Task σ)) (st : σ),
        List.Forall₂ Task.agreeOnFirstError tasks tasks2 →
        Commit tasks st = Commit tasks2 st) ∧
      (∀ (pre : List (Task σ)) (t : Task σ) (f : FuncValue σ) (st st0 st1 : σ)
          (results : List Value) (v : Value),
        allSucceed pre st = some st0 → t.Func = AnyValue.func f →
        GoType.error ∈ f.type.out →
        Call t.Func st0 = CallResult.returned results st1 →
        results[f.type.out.indexOf GoType.error]? = some v →
        (∀ r ∈ rollbackValues (pre ++ [t]), r.Returns) →
        (v = Value.nil →
            Commit (pre ++ [t]) st =
              Outcome.returned none st1 ((List.range (pre.length + 1)).map Event.func)) ∧
          (∀ e, v = Value.err e →
            ∃ st2 log, Commit (pre ++ [t]) st =
                Outcome.returned (some (transactionFailed e)) st2 log ∧
              log.filter Event.isFunc = (List.range (pre.length + 1)).map Event.func)) := by
  constructor
  · intro tasks tasks2 st h
    have hcol : ∀ i, collectLoop i tasks 0 [] = collectLoop i tasks2 0 [] :=
      fun i => collectLoop_agree i h 0 []
    unfold Commit
    rw [validateLoop_agree h, execLoop_agree hcol h 0 st []]
  · intro pre t f st st0 st1 results v hpre hf hmem hcall hres hr
    rw [hf] at hcall
    have hstep := step_of_call hf hmem hcall
    rw [hres] at hstep
    have hv := hasErrorOutput_snoc pre t st st0 f hpre hf hmem
    constructor
    · intro hnil
      subst hnil
      have hs := allSucceed_snoc t pre st st0 st1 hpre hstep
      rw [Commit_of_allSucceed (pre ++ [t]) st st1 hs]
      simp
    · intro e he
      subst he
      have hfail := firstFailure_snoc t e pre st st0 st1 hpre hstep
      have htake : (pre ++ [t]).take (pre.length + 1) = pre ++ [t] := by
        apply List.take_of_length_le
        simp
      obtain ⟨st2, _, hout⟩ := failureOutcome_of_returns (pre ++ [t]) pre.length e st1
        (by rw [htake]; exact hr)
      refine ⟨st2, _, (Commit_of_firstFailure (pre ++ [t]) st st1 pre.length e hv hfail).trans
        hout, ?_⟩
      rw [List.filter_append, filter_isFunc_funcs, filter_isFunc_declared, List.append_nil]

/-- C14, on a `func() (int, error, error)`: with a nil first error the
transaction succeeds whether the second error is nil or not, and with a
non-nil first error it fails. -/
theorem commit_decides_on_first_error_output_witness :
    Commit [lateErrorTask] [] = Commit [noErrorTask] [] ∧
      Commit ([] ++ [lateErrorTask]) [] =
        Outcome.returned none [1] ((List.range (0 + 1)).map Event.func) ∧
      ∃ st2 log, Commit ([] ++ [earlyErrorTask]) [] =
          Outcome.returned (some (transactionFailed (errorsNew (Ptr.global 7) "error")))
            st2 log ∧
        log.filter Event.isFunc = (List.range (0 + 1)).map Event.func :=
  ⟨commit_decides_on_first_error_output.1 [lateErrorTask] [noErrorTask] []
      (List.Forall₂.cons ⟨multiOutput_agree 1, rfl⟩ List.Forall₂.nil),
    (commit_decides_on_first_error_output.2 [] lateErrorTask
      { type := sampleFuncType,
        body := some fun st =>
          CallResult.returned
            [Value.other 0, Value.nil, Value.err (errorsNew (Ptr.global 9) "late")]
            (st ++ [1]) }
      [] [] [1]
      [Value.other 0, Value.nil, Value.err (errorsNew (Ptr.global 9) "late")]
      Value.nil rfl rfl (by decide) rfl rfl
      (by
        intro r hr
        simp only [lateErrorTask, rollbackValues, List.nil_append, List.flatMap_cons,
          List.flatMap_nil, List.append_nil, List.mem_singleton] at hr
        subst hr
        exact plainFunc_returns _)).1 rfl,
    (commit_decides_on_first_error_output.2 [] earlyErrorTask
      { type := sampleFuncType,
        body := some fun st =>
          CallResult.returned
            [Value.other 0, Value.err (errorsNew (Ptr.global 7) "error"), Value.nil]
            (st ++ [1]) }
      [] [] [1]
      [Value.other 0, Value.err (errorsNew (Ptr.global 7) "error"), Value.nil]
      (Value.err (errorsNew (Ptr.global 7) "error")) rfl rfl (by decide) rfl rfl
      (by
        intro r hr
        simp only [earlyErrorTask, rollbackValues, List.nil_append, List.flatMap_cons,
          List.flatMap_nil, List.append_nil, List.mem_singleton] at hr
        subst hr
        exact plainFunc_returns _)).2 _ rfl⟩

/-- C15 as stated fails: every element of `sampleRewritten` passes the
validation loop, but the first `Func` overwrites the second element with a
`func()`; the re-check at index 1 then finds no `error` output, the loop takes
the branch `!returnsError`, and `Commit` returns nil having called the first
`Func` only. -/
theorem commit_recheck_fails_on_rewritten_slice :
    sampleRewritten.len = 2 ∧
      validateLoop (sampleRewritten.read []) = Validation.passed ∧
      Call (sampleRewritten.elem [] 0).Func [] = CallResult.returned [Value.nil] [1] ∧
      hasErrorReturnType (reflectTypeOf (sampleRewritten.elem [1] 1).Func) =
        some (-1, false) ∧
      execLoopOn sampleRewritten 2 0 [] [] =
        some { ok := true, taskError := none, funcsToExecute := [], st := [1],
               log := [Event.func 0] } ∧
      CommitOn sampleRewritten [] = Outcome.returned none [1] [Event.func 0] := by
  refine ⟨rfl, rfl, rfl, rfl, rfl, rfl⟩

/-- C15, amended: when the validation loop of `Commit` completes without
returning and the task list is not written to during the run (`Commit` on the
fixed slice is `Commit` on the list), then: the re-check of
`hasErrorReturnType` finds an `error` output for every task, at a position
that is not negative and is a valid index into the results of calling `Func`,
which are as many as the outputs of its type; the execution loop does not take
the branch `!returnsError`, for when it ends with `ok` still true it has
called the `Func` of every task, and when it ends with `ok` false a `Func` has
failed; with results typed as `reflect` returns them the loop panics only when
the call of a `Func` panics, so reading `results[errPos]` is never out of
range; and `Commit` returns nil only after calling every `Func`. -/
theorem commit_recheck_finds_valid_position {σ : Type} (tasks : List (Task σ))
    (h : validateLoop tasks = Validation.passed) :
    (∀ t ∈ tasks, ∃ (f : FuncValue σ) (errPos : Int),
      t.Func = AnyValue.func f ∧
      hasErrorReturnType (reflectTypeOf t.Func) = some (errPos, true) ∧
      0 ≤ errPos ∧ errPos.toNat < f.type.out.length ∧
      ∀ (st st1 : σ) (results : List Value),
        Call t.Func st = CallResult.returned results st1 →
        results.length = f.type.out.length →
        errPos.toNat < results.length ∧ ∃ r, results[errPos.toNat]? = some r) ∧
      (∀ st : σ, CommitOn (TaskSlice.fixed tasks) st = Commit tasks st) ∧
      (∀ (st : σ) (l : Locals σ), execLoop tasks tasks 0 st [] = some l → l.ok = true →
        l.log = (List.range tasks.length).map Event.func ∧
          allSucceed tasks st = some l.st) ∧
      (∀ (st : σ) (l : Locals σ), execLoop tasks tasks 0 st [] = some l → l.ok = false →
        ∃ i e, firstFailure tasks st = some (i, e, l.st) ∧ l.taskError = some e ∧
          l.log = (List.range (i + 1)).map Event.func) ∧
      (∀ st : σ, ResultsTyped tasks → execLoop tasks tasks 0 st [] = none →
        ∃ t ∈ tasks, ∃ st0, Call t.Func st0 = CallResult.panicked) ∧
      (∀ (st st2 : σ) (log : List Event), Commit tasks st = Outcome.returned none st2 log →
        log = (List.range tasks.length).map Event.func ∧
          allSucceed tasks st = some st2) := by
  have hv := validateLoop_passed_inv tasks h
  refine ⟨?_, fun st => CommitOn_fixed tasks st, ?_, ?_, ?_, ?_⟩
  · intro t ht
    obtain ⟨f, hf, hmem, hp⟩ := func_of_hasErrorOutput (hv t ht)
    have hlt : f.type.out.indexOf GoType.error < f.type.out.length :=
      List.indexOf_lt_length.mpr hmem
    refine ⟨f, _, hf, hp, Int.natCast_nonneg _, by simpa using hlt, ?_⟩
    intro st st1 results _ hlen
    have hlt2 : f.type.out.indexOf GoType.error < results.length := by omega
    exact ⟨by simpa using hlt2, results[f.type.out.indexOf GoType.error],
      by simp [List.getElem?_eq_getElem hlt2]⟩
  · intro st l hex hok
    obtain ⟨h1, h2, _⟩ := execLoop_ok_of_validated tasks tasks 0 st [] l hv hex hok
    rw [h1, List.nil_append, List.range_eq_range']
    exact ⟨rfl, h2⟩
  · intro st l hex hok
    rcases execLoop_inv tasks tasks 0 st [] l hex with ⟨h1, _⟩ | ⟨j, e, h1, _, h3, _, h5⟩
    · rw [h1] at hok
      exact absurd hok (by simp)
    · exact ⟨j, e, h1, h3, by rw [h5, List.nil_append, List.range_eq_range']⟩
  · intro st hty hex
    exact execLoop_none_of_validated tasks tasks 0 st [] hv hty hex
  · intro st st2 log hc
    exact Commit_nil_of_validated tasks st st2 log h hc

/-- C15 amended, on the sample transaction, which passes validation. -/
theorem commit_recheck_finds_valid_position_witness :
    (∀ t ∈ sampleFailing, ∃ (f : FuncValue (List Nat)) (errPos : Int),
      t.Func = AnyValue.func f ∧
      hasErrorReturnType (reflectTypeOf t.Func) = some (errPos, true) ∧
      0 ≤ errPos ∧ errPos.toNat < f.type.out.length ∧
      ∀ (st st1 : List Nat) (results : List Value),
        Call t.Func st = CallResult.returned results st1 →
        results.length = f.type.out.length →
        errPos.toNat < results.length ∧ ∃ r, results[errPos.toNat]? = some r) ∧
      (∀ st : List Nat, CommitOn (TaskSlice.fixed sampleFailing) st = Commit sampleFailing st) ∧
      (∀ (st : List Nat) (l : Locals (List Nat)),
        execLoop sampleFailing sampleFailing 0 st [] = some l → l.ok = true →
        l.log = (List.range sampleFailing.length).map Event.func ∧
          allSucceed sampleFailing st = some l.st) ∧
      (∀ (st : List Nat) (l : Locals (List Nat)),
        execLoop sampleFailing sampleFailing 0 st [] = some l → l.ok = false →
        ∃ i e, firstFailure sampleFailing st = some (i, e, l.st) ∧ l.taskError = some e ∧
          l.log = (List.range (i + 1)).map Event.func) ∧
      (∀ st : List Nat, ResultsTyped sampleFailing →
        execLoop sampleFailing sampleFailing 0 st [] = none →
        ∃ t ∈ sampleFailing, ∃ st0, Call t.Func st0 = CallResult.panicked) ∧
      (∀ (st st2 : List Nat) (log : List Event),
        Commit sampleFailing st = Outcome.returned none st2 log →
        log = (List.range sampleFailing.length).map Event.func ∧
          allSucceed sampleFailing st = some st2) :=
  commit_recheck_finds_valid_position sampleFailing rfl

/-- C16: when every task passes validation and the task at index `i` is the
first whose `Func` fails, `Commit` on the whole list and `Commit` on the tasks
`0..i` alone have the same outcome: the same returned error, the same calls in
the same order, the same world.  With rollbacks of the tasks `0..i` that
return when called, that outcome is a return of the transaction-failed
error. -/
theorem commit_ignores_tasks_after_failure {σ : Type} (tasks : List (Task σ)) (st st1 : σ)
    (i : Nat) (e : GoError) (hv : ∀ t ∈ tasks, t.hasErrorOutput = true)
    (hf : firstFailure tasks st = some (i, e, st1))
    (hr : ∀ r ∈ rollbackValues (tasks.take (i + 1)), r.Returns) :
    Commit (tasks.take (i + 1)) st = Commit tasks st ∧
      ∃ st2 log, Commit tasks st = Outcome.returned (some (transactionFailed e)) st2 log := by
  obtain ⟨st2, _, hout⟩ := failureOutcome_of_returns tasks i e st1 hr
  have hc := Commit_of_firstFailure tasks st st1 i e hv hf
  have hc2 := Commit_of_firstFailure (tasks.take (i + 1)) st st1 i e
    (fun t ht => hv t (List.mem_of_mem_take ht)) (firstFailure_take tasks st st1 i e hf)
  rw [failureOutcome_take] at hc2
  exact ⟨hc2.trans hc.symm, st2, _, hc.trans hout⟩

/-- C16, on the sample transaction: the third task has no influence. -/
theorem commit_ignores_tasks_after_failure_witness :
    Commit (sampleFailing.take (1 + 1)) [] = Commit sampleFailing [] ∧
      ∃ st2 log, Commit sampleFailing [] =
        Outcome.returned (some (transactionFailed (errorsNew (Ptr.global 7) "error"))) st2 log :=
  commit_ignores_tasks_after_failure sampleFailing [] [1, 2] 1
    (errorsNew (Ptr.global 7) "error")
    (by simp [sampleFailing, Task.hasErrorOutput, okFunc, failFunc])
    rfl
    (returns_of_mem_take sampleFailing (1 + 1) sampleFailing_returns)

/-- C17: in every run of `Commit` that returns, the calls made are `Func`
calls followed by rollback calls: the log is the `Func`s of the tasks
`0..n-1` and then rollbacks only, so once a rollback has been called every
later call is a rollback; and when a rollback is called at all, some task at
an index `i` is the first to fail and `n = i + 1`, so the failing `Func` has
returned before the first rollback. -/
theorem commit_funcs_then_rollbacks {σ : Type} (tasks : List (Task σ)) (st st2 : σ)
    (err : Option GoError) (log : List Event)
    (h : Commit tasks st = Outcome.returned err st2 log) :
    ∃ n rbs, log = (List.range n).map Event.func ++ rbs ∧
      (∀ ev ∈ rbs, ev.isRollback = true) ∧
      List.Pairwise (fun a b : Event => a.isRollback = true → b.isRollback = true) log ∧
      (rbs ≠ [] → ∃ i e st1, firstFailure tasks st = some (i, e, st1) ∧ n = i + 1) := by
  rcases Commit_returned_inv tasks st st2 err log h with ⟨_, _, h3⟩ | ⟨_, n, h2⟩ |
      ⟨i, e, st1, hf, _, _, hlog, _⟩
  · refine ⟨0, [], by simp [h3], by simp, by simp [h3], fun hne => absurd rfl hne⟩
  · refine ⟨n, [], by simp [h2], by simp, ?_, fun hne => absurd rfl hne⟩
    rw [h2]
    simpa using pairwise_funcs_then_rollbacks n [] (by simp)
  · have hrb : ∀ ev ∈ (declaredRollbacks (tasks.take (i + 1))).reverse, ev.isRollback = true :=
      fun ev hev => isRollback_of_mem_declared _ ev (List.mem_reverse.mp hev)
    refine ⟨i + 1, _, hlog, hrb, ?_, fun _ => ⟨i, e, st1, hf, rfl⟩⟩
    rw [hlog]
    exact pairwise_funcs_then_rollbacks (i + 1) _ hrb

/-- C17, on the sample transaction: two `Func` calls, then three rollbacks. -/
theorem commit_funcs_then_rollbacks_witness :
    ∃ n rbs, [Event.func 0, Event.func 1, Event.rollback 1 0, Event.rollback 0 1,
          Event.rollback 0 0] = (List.range n).map Event.func ++ rbs ∧
      (∀ ev ∈ rbs, ev.isRollback = true) ∧
      List.Pairwise (fun a b : Event => a.isRollback = true → b.isRollback = true)
        [Event.func 0, Event.func 1, Event.rollback 1 0, Event.rollback 0 1,
          Event.rollback 0 0] ∧
      (rbs ≠ [] → ∃ i e st1, firstFailure sampleFailing [] = some (i, e, st1) ∧ n = i + 1) :=
  commit_funcs_then_rollbacks sampleFailing [] [1, 2, 20, 11, 10]
    (some (transactionFailed (errorsNew (Ptr.global 7) "error")))
    [Event.func 0, Event.func 1, Event.rollback 1 0, Event.rollback 0 1, Event.rollback 0 0]
    rfl

end Tx
